import Mathlib

/-
Shallow embedding of the betting engine of src/src/game.rs (a Texas Hold'em
simulator).  Rust u32 values are modelled as Nat; Rust saturating_sub is Nat
subtraction (which saturates at 0); a plain Rust "-"/"-=" on u32 (which
panics on underflow in debug builds) is modelled by checkedSub, so functions
that perform such subtractions are Option-valued, with none meaning a panic.
The deck shuffle (rand::thread_rng) is modelled by an explicit shuffle
parameter of type List Card -> List Card; the deck is a list whose head is
the next card popped.
-/

namespace Poker

inductive Rank where
  | Two | Three | Four | Five | Six | Seven | Eight | Nine | Ten
  | Jack | Queen | King | Ace
  deriving DecidableEq

inductive Suit where
  | Hearts | Diamonds | Clubs | Spades
  deriving DecidableEq

structure Card where
  rank : Rank
  suit : Suit
  deriving DecidableEq

inductive BotDifficulty where
  | Easy | Medium | Hard
  deriving DecidableEq

/-- Player state, as in game.rs lines 92-101. -/
structure Player where
  name : String
  hand : List Card
  chips : Nat
  current_bet : Nat
  folded : Bool
  is_bot : Bool
  bot_difficulty : BotDifficulty
  deriving DecidableEq

inductive Round where
  | PreFlop | Flop | Turn | River | Showdown
  deriving DecidableEq

inductive GameAction where
  | Fold
  | Call
  | Raise (amount : Nat)
  | Check
  deriving DecidableEq

/-- Game state, as in game.rs lines 112-131 (the reqwest ai_client and the
api_key, which play no part in the game logic, are omitted). -/
structure Game where
  players : List Player
  deck : List Card
  community_cards : List Card
  pot : Nat
  current_player_idx : Nat
  min_bet : Nat
  round : Round
  dealer_idx : Nat
  small_blind_idx : Nat
  big_blind_idx : Nat
  last_action_count : Nat
  bb_has_acted_preflop : Bool
  players_acted_this_round : List Nat
  last_aggressor : Option Nat
  round_action_complete : Bool
  player_contributions_this_round : List Nat
  deriving DecidableEq

/-- The value produced by indexing a Vec<Player> out of bounds does not exist
in Rust (it panics); getD with this default is only ever relevant when the
index is in bounds or when a theorem handles the out-of-bounds case
explicitly. -/
def defaultPlayer : Player :=
  { name := "", hand := [], chips := 0, current_bet := 0, folded := false,
    is_bot := false, bot_difficulty := BotDifficulty.Easy }

def suitsList : List Suit := [.Hearts, .Diamonds, .Clubs, .Spades]

def ranksList : List Rank :=
  [.Two, .Three, .Four, .Five, .Six, .Seven, .Eight, .Nine, .Ten,
   .Jack, .Queen, .King, .Ace]

/-- Game::create_deck (game.rs lines 235-253): for each suit, for each rank,
push the card. -/
def create_deck : List Card :=
  suitsList.flatMap (fun s => ranksList.map (fun r => { rank := r, suit := s }))

/-- Sum of all players' chip stacks. -/
def sumChips (ps : List Player) : Nat := (ps.map (·.chips)).sum

/-- Highest current bet at the table:
players.iter().map(|p| p.current_bet).max().unwrap_or(0). -/
def highestBet (g : Game) : Nat := (g.players.map (·.current_bet)).foldr max 0

/-- A u32 subtraction that panics on underflow (Rust debug semantics),
modelled as an Option. -/
def checkedSub (a b : Nat) : Option Nat := if b ≤ a then some (a - b) else none

/-- The bookkeeping prologue of perform_action (game.rs lines 682-689):
last_action_count += 1, and the acting player is recorded in
players_acted_this_round unless already present. -/
def trackAction (g : Game) : Game :=
  let gA := { g with last_action_count := g.last_action_count + 1 }
  if gA.players_acted_this_round.contains g.current_player_idx then gA
  else { gA with players_acted_this_round :=
           gA.players_acted_this_round ++ [g.current_player_idx] }

/-- The convert-to-call block that perform_action repeats verbatim in its
Call (lines 710-725), too-small-Raise (lines 768-779) and Check (lines
814-827) branches: move min(highest_bet - player_current_bet, chips) from
the acting player's chips to the pot and their current bet, record the
contribution, and report a Call. -/
def convertToCall (gB : Game)
    (current_player_idx highest_bet player_current_bet : Nat) :
    Option (Game × GameAction × Option Nat) :=
  -- call_amount = highest_bet.saturating_sub(player_current_bet)
  let call_amount := highest_bet - player_current_bet
  let p := gB.players.getD current_player_idx defaultPlayer
  let actual_call := min call_amount p.chips
  match checkedSub p.chips actual_call with
  | none => none
  | some newChips =>
    some ({ gB with
              players := gB.players.set current_player_idx
                { p with chips := newChips,
                         current_bet := p.current_bet + actual_call },
              pot := gB.pot + actual_call,
              player_contributions_this_round :=
                gB.player_contributions_this_round.set current_player_idx
                  (gB.player_contributions_this_round.getD
                    current_player_idx 0 + actual_call) },
          .Call, some (p.current_bet + actual_call))

/-- Game::perform_action (game.rs lines 666-848).  Besides the performed
action and the resulting total bet it returns the updated state; none models
a u32-underflow panic.  The final three checkedSub applications are the
validation step of lines 836-844 (the computed values feed only a println
warning, so they are discarded here, but the subtractions themselves are
performed by the source and can panic). -/
def perform_action (g : Game) (action : GameAction) :
    Option (Game × GameAction × Option Nat) :=
  let current_player_idx := g.current_player_idx
  let highest_bet := highestBet g
  let player_current_bet :=
    (g.players.getD current_player_idx defaultPlayer).current_bet
  let player_contribution_before :=
    g.player_contributions_this_round.getD current_player_idx 0
  let is_first_bet_in_round : Bool := highest_bet == 0
  let gB := trackAction g
  let initial_chips := (gB.players.getD current_player_idx defaultPlayer).chips
  let initial_pot := gB.pot
  let branch : Option (Game × GameAction × Option Nat) :=
    match action with
    | .Fold =>
      let p := gB.players.getD current_player_idx defaultPlayer
      some ({ gB with players :=
                gB.players.set current_player_idx { p with folded := true } },
            .Fold, none)
    | .Call =>
      if highest_bet ≤ player_current_bet then
        -- no bet to call: convert to check
        some (gB, .Check, some player_current_bet)
      else
        convertToCall gB current_player_idx highest_bet player_current_bet
    | .Raise amount =>
      if is_first_bet_in_round then
        -- an opening bet, not a raise
        let p := gB.players.getD current_player_idx defaultPlayer
        let actual_bet := min amount p.chips
        if actual_bet < gB.min_bet then
          -- not enough for minimum bet: convert to check
          some (gB, .Check, some 0)
        else
          match checkedSub p.chips actual_bet with
          | none => none
          | some newChips =>
            some ({ gB with
                      players := gB.players.set current_player_idx
                        { p with chips := newChips,
                                 current_bet := actual_bet },
                      pot := gB.pot + actual_bet,
                      player_contributions_this_round :=
                        gB.player_contributions_this_round.set
                          current_player_idx
                          (gB.player_contributions_this_round.getD
                            current_player_idx 0 + actual_bet),
                      last_aggressor := some current_player_idx,
                      players_acted_this_round := [current_player_idx] },
                  .Raise actual_bet, some actual_bet)
      else
        -- a raise over a previous bet (the source also computes an unused
        -- _min_raise via saturating_sub; it has no effect)
        let target_bet := player_current_bet + amount
        if target_bet < highest_bet + gB.min_bet then
          if player_current_bet < highest_bet then
            -- raise too small, there is a bet to call: convert to call
            convertToCall gB current_player_idx highest_bet player_current_bet
          else
            -- nothing owed: convert to check
            some (gB, .Check, some player_current_bet)
        else
          -- valid raise, capped by the chip stack
          let raise_amount := target_bet - player_current_bet
          let p := gB.players.getD current_player_idx defaultPlayer
          let actual_raise := min raise_amount p.chips
          let final_bet := player_current_bet + actual_raise
          match checkedSub p.chips actual_raise with
          | none => none
          | some newChips =>
            some ({ gB with
                      players := gB.players.set current_player_idx
                        { p with chips := newChips,
                                 current_bet := p.current_bet + actual_raise },
                      pot := gB.pot + actual_raise,
                      player_contributions_this_round :=
                        gB.player_contributions_this_round.set
                          current_player_idx
                          (gB.player_contributions_this_round.getD
                            current_player_idx 0 + actual_raise),
                      last_aggressor := some current_player_idx,
                      players_acted_this_round := [current_player_idx] },
                  .Raise actual_raise, some final_bet)
    | .Check =>
      if player_current_bet < highest_bet then
        -- invalid check: convert to call
        convertToCall gB current_player_idx highest_bet player_current_bet
      else
        some (gB, .Check, some player_current_bet)
  match branch with
  | none => none
  | some (g1, act, tb) =>
    -- validation step (lines 836-844): three u32 subtractions
    match checkedSub (g1.player_contributions_this_round.getD
            current_player_idx 0) player_contribution_before,
          checkedSub g1.pot initial_pot,
          checkedSub initial_chips
            ((g1.players.getD current_player_idx defaultPlayer).chips) with
    | some _, some _, some _ => some (g1, act, tb)
    | _, _, _ => none

/-- A player that is neither folded nor out of chips
(!p.folded && p.chips > 0 in the source). -/
def isActive (p : Player) : Bool := !p.folded && p.chips != 0

/-- The loop of Game::find_next_active_player (game.rs lines 525-543): check
up to fuel seats starting at idx, stepping (i + 1) % n. -/
def findNextFrom (ps : List Player) : Nat → Nat → Option Nat
  | _, 0 => none
  | idx, fuel + 1 =>
    if isActive (ps.getD idx defaultPlayer) then some idx
    else findNextFrom ps ((idx + 1) % ps.length) fuel

/-- Game::find_next_active_player: starting after current_idx the source
checks every seat exactly once around the table (players.length checks
before the index wraps back to its start) and falls back to current_idx when
no seat passes. -/
def find_next_active_player (g : Game) (current_idx : Nat) : Nat :=
  match findNextFrom g.players ((current_idx + 1) % g.players.length)
      g.players.length with
  | some idx => idx
  | none => current_idx

/-- One round-robin pass dealing one card off the top of the deck to each
player in order (the inner loop of game.rs lines 297-303; a missing card is
skipped silently). -/
def dealRound : List Player → List Card → List Player × List Card
  | [], deck => ([], deck)
  | p :: rest, [] =>
    let (rest', deck') := dealRound rest []
    (p :: rest', deck')
  | p :: rest, c :: deck =>
    let (rest', deck') := dealRound rest deck
    ({ p with hand := p.hand ++ [c] } :: rest', deck')

/-- The opening stage of Game::deal_cards (game.rs lines 261-294): reset the
per-round tracking, rotate the dealer and blind seats, clear every player's
hand, folded flag and bet, clear the board, zero the pot, return to PreFlop
and install a fresh shuffled deck. -/
def dealPrep (shuffle : List Card → List Card) (g : Game) : Game :=
  let n := g.players.length
  -- reset counters and per-round tracking (lines 261-273)
  let g := { g with last_action_count := 0, bb_has_acted_preflop := false,
                    players_acted_this_round := [], last_aggressor := none,
                    round_action_complete := false,
                    player_contributions_this_round := List.replicate n 0 }
  -- rotate positions (lines 276-278)
  let dealer := (g.dealer_idx + 1) % n
  let sb := (dealer + 1) % n
  let bb := (sb + 1) % n
  let g := { g with dealer_idx := dealer, small_blind_idx := sb,
                    big_blind_idx := bb }
  -- clear old hands and reset player state (lines 281-285)
  let cleared :=
    g.players.map (fun p => { p with hand := [], folded := false, current_bet := 0 })
  let g := { g with players := cleared }
  -- clear community cards, reset pot and round (lines 288-290)
  let g := { g with community_cards := [], pot := 0, round := Round.PreFlop }
  -- fresh shuffled deck (lines 293-294)
  { g with deck := shuffle create_deck }

/-- The hole-card stage of Game::deal_cards (game.rs lines 297-303): two
round-robin passes of one card per player. -/
def dealHole (g : Game) : Game :=
  let step1 := dealRound g.players g.deck
  let step2 := dealRound step1.1 step1.2
  { g with players := step2.1, deck := step2.2 }

/-- The money stage of Game::deal_cards (game.rs lines 305-334).  The ante
loop deducts 1 chip per player (saturating), grows the pot by 1 per player
and turns every entry of the contributions vector — reset to zeros by the
dealPrep stage of the same call — into 1; then the blinds are posted and the
seat after the big blind is put on the move. -/
def postBlinds (g : Game) : Game :=
  let n := g.players.length
  -- antes (lines 307-313)
  let ante := 1
  let g := { g with
      players := g.players.map (fun p => { p with chips := p.chips - ante }),
      pot := g.pot + ante * n,
      player_contributions_this_round := List.replicate n ante }
  -- blinds (lines 315-334)
  if 2 ≤ n then
    let small_blind := g.min_bet / 2
    let sbp := g.players.getD g.small_blind_idx defaultPlayer
    let g := { g with
        players := g.players.set g.small_blind_idx
          { sbp with chips := sbp.chips - small_blind,
                     current_bet := small_blind },
        pot := g.pot + small_blind,
        player_contributions_this_round :=
          g.player_contributions_this_round.set g.small_blind_idx
            (g.player_contributions_this_round.getD g.small_blind_idx 0
              + small_blind) }
    let big_blind := g.min_bet
    let bbp := g.players.getD g.big_blind_idx defaultPlayer
    let g := { g with
        players := g.players.set g.big_blind_idx
          { bbp with chips := bbp.chips - big_blind,
                     current_bet := big_blind },
        pot := g.pot + big_blind,
        player_contributions_this_round :=
          g.player_contributions_this_round.set g.big_blind_idx
            (g.player_contributions_this_round.getD g.big_blind_idx 0
              + big_blind) }
    { g with current_player_idx := (g.big_blind_idx + 1) % n }
  else g

/-- Game::deal_cards (game.rs lines 260-335), as the composition of its
three stages. -/
def deal_cards (shuffle : List Card → List Card) (g : Game) : Game :=
  postBlinds (dealHole (dealPrep shuffle g))

/-- Deal up to k cards off the top of the deck onto a card pile (k
repetitions of the source's "if let Some(card) = self.deck.pop()"). -/
def dealN : Nat → List Card → List Card → List Card × List Card
  | 0, deck, comm => (deck, comm)
  | _ + 1, [], comm => ([], comm)
  | k + 1, c :: deck, comm => dealN k deck (comm ++ [c])

/-- Expected community-card count per round (game.rs lines 372-377). -/
def expectedCommunity : Round → Nat
  | .Flop => 3
  | .Turn => 4
  | .River => 5
  | _ => 0

/-- Game::deal_community_cards (game.rs lines 337-392). -/
def deal_community_cards (shuffle : List Card → List Card) (g : Game) : Game :=
  -- ensure enough cards in the deck (lines 339-342)
  let g := if g.deck.length < 5 then { g with deck := shuffle create_deck }
           else g
  -- per-round deal (lines 344-368)
  let g :=
    match g.round with
    | .Flop =>
      let r := dealN 3 g.deck g.community_cards
      { g with deck := r.1, community_cards := r.2 }
    | .Turn =>
      let r := dealN 1 g.deck g.community_cards
      { g with deck := r.1, community_cards := r.2 }
    | .River =>
      let r := dealN 1 g.deck g.community_cards
      { g with deck := r.1, community_cards := r.2 }
    | _ => g
  -- force the correct number of cards if needed (lines 371-391)
  if g.round ≠ Round.PreFlop then
    if g.community_cards.length ≠ expectedCommunity g.round then
      let r := dealN (expectedCommunity g.round) g.deck []
      { g with deck := r.1, community_cards := r.2 }
    else g
  else g

/-- Game::next_round (game.rs lines 394-523). -/
def next_round (shuffle : List Card → List Card) (g : Game) : Game :=
  -- ensure the deck is set up (lines 396-399)
  let g := if g.deck.length < 5 then { g with deck := shuffle create_deck }
           else g
  match g.round with
  | .Showdown => deal_cards shuffle g   -- start a new hand (lines 408-412)
  | _ =>
    let newRound :=
      match g.round with
      | .PreFlop => Round.Flop
      | .Flop => Round.Turn
      | .Turn => Round.River
      | _ => Round.Showdown
    let g := { g with round := newRound }
    -- reset bets for the new round (lines 438-440)
    let betsReset := g.players.map (fun p => { p with current_bet := 0 })
    let g := { g with players := betsReset }
    -- deal community cards for the new round (lines 443-500)
    let g :=
      match g.round with
      | .Flop =>
        let r := dealN 3 g.deck []
        { g with deck := r.1, community_cards := r.2 }
      | .Turn =>
        let g :=
          if g.community_cards.length < 3 then
            let r := dealN 3 g.deck []
            { g with deck := r.1, community_cards := r.2 }
          else g
        let r := dealN 1 g.deck g.community_cards
        { g with deck := r.1, community_cards := r.2 }
      | .River =>
        let g :=
          if g.community_cards.length < 4 then
            let missing := 4 - g.community_cards.length
            let r := dealN missing g.deck g.community_cards
            { g with deck := r.1, community_cards := r.2 }
          else g
        let r := dealN 1 g.deck g.community_cards
        { g with deck := r.1, community_cards := r.2 }
      | .Showdown =>
        if g.community_cards.length < 5 then
          let missing := 5 - g.community_cards.length
          let r := dealN missing g.deck g.community_cards
          { g with deck := r.1, community_cards := r.2 }
        else g
      | .PreFlop => g
    -- reset action tracking (lines 503-511)
    let g := { g with last_action_count := 0, players_acted_this_round := [],
                      last_aggressor := none, round_action_complete := false,
                      player_contributions_this_round :=
                        List.replicate g.players.length 0 }
    -- seat the first active player after the small blind (lines 519-522)
    if g.round ≠ Round.Showdown then
      { g with current_player_idx :=
          find_next_active_player g (g.small_blind_idx % g.players.length) }
    else g

/-- Players who are neither folded nor chip-less in next_player's STEP 1
(game.rs line 547). -/
def activeCount (g : Game) : Nat := (g.players.filter isActive).length

/-- The acted-since-aggressor scan of next_player (game.rs lines 583-599).
The loop's only mutable state is the running index, which the step function
determines from the previous one, so a run of players.length + 1 iterations
must revisit an index and the source then loops forever; none models that
divergence. -/
def allActedScan (g : Game) (aggressor_idx : Nat) : Nat → Nat → Option Bool
  | _, 0 => none
  | idx, fuel + 1 =>
    if idx = aggressor_idx then some true
    else if !(g.players_acted_this_round.contains idx)
         && !(g.players.getD idx defaultPlayer).folded
         && (g.players.getD idx defaultPlayer).chips != 0 then
      some false
    else allActedScan g aggressor_idx (find_next_active_player g idx) fuel

/-- The STEP 3 advancement loop of next_player when a last aggressor exists
(game.rs lines 638-656); the fuel argument plays the same divergence-
detecting role as in allActedScan. -/
def scanLoop (shuffle : List Card → List Card) (g : Game)
    (aggressor_idx highest_bet : Nat) : Nat → Nat → Option (Game × Bool)
  | _, 0 => none
  | cur, fuel + 1 =>
    let p := g.players.getD cur defaultPlayer
    if p.folded || p.chips == 0
       || (g.players_acted_this_round.contains cur
           && p.current_bet == highest_bet) then
      let cur' := find_next_active_player g cur
      if cur' = aggressor_idx then
        if g.round = Round.Showdown then
          some ({ g with current_player_idx := cur' }, false)
        else
          some (next_round shuffle { g with current_player_idx := cur' }, true)
      else scanLoop shuffle g aggressor_idx highest_bet cur' fuel
    else some ({ g with current_player_idx := cur }, true)

/-- The big-blind bookkeeping at the top of next_player's STEP 3 (game.rs
lines 627-630): in PreFlop, when the current player is the big blind, record
that the big blind has acted. -/
def bbActedUpdate (g : Game) : Game :=
  if g.round = Round.PreFlop
     && g.current_player_idx == g.big_blind_idx then
    { g with bb_has_acted_preflop := true }
  else g

/-- Game::next_player (game.rs lines 545-664); none models divergence of one
of its two scans. -/
def next_player (shuffle : List Card → List Card) (g : Game) :
    Option (Game × Bool) :=
  -- STEP 1 (lines 546-560)
  let active_players := activeCount g
  if active_players ≤ 1 then
    if g.round = Round.Showdown then some (g, false)
    else some ({ g with round := Round.Showdown }, true)
  else
    -- STEP 2 (lines 562-623)
    let highest_bet := highestBet g
    let bets_matched := (g.players.filter (fun p => !p.folded)).all
      (fun p => p.current_bet == highest_bet || p.chips == 0)
    let force_advancement : Bool :=
      decide (active_players * 3 ≤ g.last_action_count)
    let bb_rule_satisfied : Bool :=
      if g.round = Round.PreFlop then
        g.bb_has_acted_preflop
          || (g.players.getD g.big_blind_idx defaultPlayer).folded
      else true
    let all_acted_opt : Option Bool :=
      match g.last_aggressor with
      | some aggressor_idx =>
        allActedScan g aggressor_idx
          (find_next_active_player g aggressor_idx) (g.players.length + 1)
      | none =>
        some (((List.range g.players.length).filter
          (fun i => isActive (g.players.getD i defaultPlayer))).all
          (fun i => g.players_acted_this_round.contains i))
    match all_acted_opt with
    | none => none
    | some all_acted_after_aggressor =>
      let round_complete :=
        (bets_matched && bb_rule_satisfied && all_acted_after_aggressor)
        || force_advancement
      if round_complete then
        if g.round = Round.Showdown then some (g, false)
        else some (next_round shuffle g, true)
      else
        -- STEP 3 (lines 625-663)
        let g := bbActedUpdate g
        match g.last_aggressor with
        | some aggressor_idx =>
          scanLoop shuffle g aggressor_idx highest_bet
            (find_next_active_player g aggressor_idx) (g.players.length + 1)
        | none =>
          some ({ g with current_player_idx :=
                    find_next_active_player g g.current_player_idx }, true)

def defaultCard : Card := { rank := Rank.Two, suit := Suit.Hearts }

/-- Strict lexicographic order on (category, tiebreak) pairs, matching the
derived Ord on rs_poker's Rank (categories in declaration order, ties within
a category broken by the inner value). -/
def lexGt (a b : Nat × Nat) : Bool := b.1 < a.1 || (a.1 == b.1 && b.2 < a.2)

/-- Non-strict counterpart of lexGt, used to state maximality. -/
def lexLe (a b : Nat × Nat) : Prop := a.1 < b.1 ∨ (a.1 = b.1 ∧ a.2 ≤ b.2)

/-- Indices of the non-folded players: the active_players vector built in
Game::determine_winner (game.rs lines 853-858). -/
def activeIdx (g : Game) : List Nat :=
  (List.range g.players.length).filter
    (fun i => !(g.players.getD i defaultPlayer).folded)

/-- One iteration of determine_winner's loop over the non-folded players
(game.rs lines 884-1029), acting on the state
(best_rank_value, best_actual_hand, winner_idx).  evalHand stands for the
external rs_poker evaluator: it maps the combined hole+community card list
to a (category, tiebreak) pair, where category is the numerical rank value
of lines 959-969 and the lexicographic order on the pair is the evaluator's
derived total order on hands. -/
def dwStep (evalHand : List Card → Nat × Nat) (g : Game)
    (st : Nat × Option (Nat × Nat) × Nat) (player_idx : Nat) :
    Nat × Option (Nat × Nat) × Nat :=
  let best_rank_value := st.1
  let best_actual_hand := st.2.1
  let player_cards := (g.players.getD player_idx defaultPlayer).hand
  if !player_cards.isEmpty && !g.community_cards.isEmpty then
    let hand_rank := evalHand (player_cards ++ g.community_cards)
    let rank_value := hand_rank.1
    if best_rank_value < rank_value || best_actual_hand.isNone then
      (rank_value, some hand_rank, player_idx)
    else if rank_value == best_rank_value && best_actual_hand.isSome then
      match best_actual_hand with
      | some best =>
        if lexGt hand_rank best then (best_rank_value, some hand_rank, player_idx)
        else st
      | none => st
    else st
  else if 2 ≤ player_cards.length then
    if (player_cards.getD 0 defaultCard).rank
       = (player_cards.getD 1 defaultCard).rank then
      if best_rank_value < 1 then (1, best_actual_hand, player_idx) else st
    else
      if best_rank_value == 0 && best_actual_hand.isNone then
        (best_rank_value, best_actual_hand, player_idx)
      else st
  else st

/-- Game::determine_winner (game.rs lines 850-1080), parametrised by the
external hand evaluator; returns the updated game, the winner index and the
amount awarded.  The human-readable description string (lines 1031-1073),
which no claim concerns, is omitted; with no non-folded player the source
panics on active_players[0] while this model reads index 0. -/
def determine_winner (evalHand : List Card → Nat × Nat) (g : Game) :
    Game × Nat × Nat :=
  let active_players := activeIdx g
  if active_players.length = 1 then
    let winner_idx := active_players.getD 0 0
    let winnings := g.pot
    let p := g.players.getD winner_idx defaultPlayer
    ({ g with players := g.players.set winner_idx
                { p with chips := p.chips + winnings },
              pot := 0 }, winner_idx, winnings)
  else
    let init : Nat × Option (Nat × Nat) × Nat := (0, none, active_players.getD 0 0)
    let st := active_players.foldl (dwStep evalHand g) init
    let winner_idx := st.2.2
    let winnings := g.pot
    let p := g.players.getD winner_idx defaultPlayer
    ({ g with players := g.players.set winner_idx
                { p with chips := p.chips + winnings },
              pot := 0 }, winner_idx, winnings)

/-- Decimal rendering of a Nat, as Rust's format! produces for a u32. -/
def natChars (n : Nat) : List Char := Nat.toDigits 10 n

/-- Rust str::split_whitespace: split on whitespace, dropping empty pieces. -/
def splitWS (s : List Char) : List (List Char) :=
  (List.splitOnP (fun c => c.isWhitespace) s).filter (fun t => !t.isEmpty)

def parseDigitsAux : List Char → Nat → Option Nat
  | [], acc => some acc
  | c :: rest, acc =>
    if c.isDigit then parseDigitsAux rest (acc * 10 + (c.toNat - '0'.toNat))
    else none

/-- Rust u32::from_str: an optional leading plus sign, then at least one
decimal digit, value at most u32::MAX; anything else is a parse error. -/
def parse_u32 (s : List Char) : Option Nat :=
  let t := match s with
    | '+' :: rest => rest
    | _ => s
  match t with
  | [] => none
  | _ =>
    match parseDigitsAux t 0 with
    | some n => if n < 2 ^ 32 then some n else none
    | none => none

/-- Game::generate_random_bot_action (game.rs lines 1149-1223), with the two
rng draws passed in explicitly: choice models gen_range(0..10) and
raiseFactor models gen_range(1..3) (used only by Medium and Hard raises).
The f32 raise_penalty computation (count * 0.5, capped at 8.0, truncated to
u32) equals min (count / 2) 8 for every count below 2^24, i.e. any count the
game can reach, and the i32 saturating_add equals plain addition for every
value gen_range(0..10) can produce. -/
def generate_random_bot_action (g : Game) (choice : Int) (raiseFactor : Nat)
    (player : Player) : List Char :=
  let has_chips : Bool := decide (g.min_bet ≤ player.chips)
  let raise_penalty := min (g.last_action_count / 2) 8
  let is_late_round : Bool :=
    decide (g.round = Round.Turn) || decide (g.round = Round.River)
  match player.bot_difficulty with
  | .Easy =>
    let choice :=
      if is_late_round || decide (10 < g.last_action_count) then choice + 2
      else choice
    if choice < 5 then "call".toList
    else if choice < 8 then "check".toList
    else if decide (choice < 9) && has_chips && decide (raise_penalty < 8) then
      "raise ".toList ++ natChars g.min_bet
    else "fold".toList
  | .Medium =>
    let choice :=
      if is_late_round || decide (8 < g.last_action_count) then choice + 3
      else choice
    if choice < 3 then "call".toList
    else if choice < 6 then "check".toList
    else if decide (choice < 9) && has_chips && decide (raise_penalty < 7) then
      "raise ".toList ++ natChars (raiseFactor * g.min_bet)
    else "fold".toList
  | .Hard =>
    let choice :=
      if is_late_round || decide (6 < g.last_action_count) then choice + 2
      else choice
    if choice < 2 then "call".toList
    else if choice < 4 then "check".toList
    else if decide (choice < 8) && has_chips && decide (raise_penalty < 6) then
      "raise ".toList ++ natChars (raiseFactor * g.min_bet)
    else "fold".toList

/-- The parsing part of Game::get_bot_action (game.rs lines 1087-1110). -/
def parse_bot_action (g : Game) (action_str : List Char) :
    Except String GameAction :=
  if List.isPrefixOf "fold".toList action_str then .ok .Fold
  else if List.isPrefixOf "call".toList action_str then .ok .Call
  else if List.isPrefixOf "check".toList action_str then .ok .Check
  else if List.isPrefixOf "raise".toList action_str then
    let parts := splitWS action_str
    if 2 ≤ parts.length then
      match parse_u32 (parts.getD 1 []) with
      | some amount => .ok (.Raise amount)
      | none => .ok (.Raise g.min_bet)
    else .ok (.Raise g.min_bet)
  else .ok .Check

/-- Game::get_bot_action (game.rs lines 1082-1111). -/
def get_bot_action (g : Game) (choice : Int) (raiseFactor : Nat)
    (bot_player : Player) : Except String GameAction :=
  parse_bot_action g (generate_random_bot_action g choice raiseFactor bot_player)

/-- One UI-driven step of a hand: either a player action routed through
perform_action or a turn advancement through next_player. -/
inductive HandStep where
  | act : GameAction → HandStep
  | advance : HandStep

def runStep (shuffle : List Card → List Card) (g : Game) :
    HandStep → Option Game
  | .act a =>
    match perform_action g a with
    | some r => some r.1
    | none => none
  | .advance =>
    match next_player shuffle g with
    | some r => some r.1
    | none => none

def runSteps (shuffle : List Card → List Card) :
    Game → List HandStep → Option Game
  | g, [] => some g
  | g, s :: rest =>
    match runStep shuffle g s with
    | some g' => runSteps shuffle g' rest
    | none => none

/-! Helper lemmas about list indexing and updating. -/

theorem getD_set_self {α : Type _} (l : List α) (i : Nat) (x d : α) :
    (l.set i x).getD i d = if i < l.length then x else d := by
  induction l generalizing i with
  | nil => simp
  | cons a t ih =>
    cases i with
    | zero => simp
    | succ n => simpa [Nat.succ_lt_succ_iff] using ih n

theorem set_oob {α : Type _} (l : List α) {i : Nat} (h : l.length ≤ i) (x : α) :
    l.set i x = l := by
  induction l generalizing i with
  | nil => rfl
  | cons a t ih =>
    cases i with
    | zero => simp at h
    | succ n =>
      simp only [List.set]
      rw [ih (by simpa using h)]

theorem getD_oob {α : Type _} (l : List α) {i : Nat} (h : l.length ≤ i) (d : α) :
    l.getD i d = d := by
  induction l generalizing i with
  | nil => rfl
  | cons a t ih =>
    cases i with
    | zero => simp at h
    | succ n => simpa using ih (by simpa using h)

theorem sumChips_set (l : List Player) (i : Nat) (h : i < l.length) (p : Player) :
    sumChips (l.set i p) + (l.getD i defaultPlayer).chips = sumChips l + p.chips := by
  induction l generalizing i with
  | nil => simp at h
  | cons a t ih =>
    cases i with
    | zero => simp [sumChips]; omega
    | succ n =>
      have hn : n < t.length := by simpa [Nat.succ_lt_succ_iff] using h
      have := ih n hn
      simp only [List.set, sumChips, List.map_cons, List.sum_cons, List.getD_cons_succ] at this ⊢
      omega

theorem getD_set_ne {α : Type _} (l : List α) {i j : Nat} (h : i ≠ j)
    (x d : α) : (l.set i x).getD j d = l.getD j d := by
  induction l generalizing i j with
  | nil => rfl
  | cons a t ih =>
    cases i with
    | zero =>
      cases j with
      | zero => exact absurd rfl h
      | succ m => simp
    | succ n =>
      cases j with
      | zero => simp
      | succ m =>
        simpa using ih (fun hc => h (congrArg Nat.succ hc))

theorem checkedSub_of_le {a b : Nat} (h : b ≤ a) : checkedSub a b = some (a - b) := by
  simp [checkedSub, h]

theorem sumChips_map_chips (ps : List Player) (f : Player → Player)
    (hf : ∀ p, (f p).chips = p.chips) : sumChips (ps.map f) = sumChips ps := by
  induction ps with
  | nil => rfl
  | cons a t ih =>
    simp only [sumChips, List.map_cons, List.sum_cons] at ih ⊢
    rw [hf a, ih]

/-- Hole-card dealing changes hands only, never chip stacks. -/
theorem chipsMap_dealRound (ps : List Player) (dk : List Card) :
    ((dealRound ps dk).1).map (·.chips) = ps.map (·.chips) := by
  induction ps generalizing dk with
  | nil => rfl
  | cons p rest ih =>
    cases dk with
    | nil => simp [dealRound, ih]
    | cons c dkt => simp [dealRound, ih]

theorem getD_chips (ps : List Player) (i : Nat) :
    (ps.getD i defaultPlayer).chips = (ps.map (·.chips)).getD i 0 := by
  induction ps generalizing i with
  | nil => rfl
  | cons a t ih =>
    cases i with
    | zero => simp
    | succ n => simpa using ih n

/-- The ante loop deducts exactly one chip per player when every player can
cover the ante. -/
theorem ante_sum (ps : List Player) (h : ∀ p ∈ ps, 1 ≤ p.chips) :
    sumChips (ps.map (fun p => { p with chips := p.chips - 1 })) + ps.length
      = sumChips ps := by
  induction ps with
  | nil => rfl
  | cons a t ih =>
    have ha := h a (by simp)
    have ht := ih (fun p hp => h p (by simp [hp]))
    simp only [sumChips, List.map_cons, List.sum_cons, List.length_cons] at ht ⊢
    omega

theorem getD_chips_map_sub (ps : List Player) {i : Nat} (h : i < ps.length) :
    ((ps.map (fun p => { p with chips := p.chips - 1 })).getD i
        defaultPlayer).chips
      = (ps.getD i defaultPlayer).chips - 1 := by
  induction ps generalizing i with
  | nil => simp at h
  | cons a t ih =>
    cases i with
    | zero => simp
    | succ n => simpa using ih (by simpa using h)

theorem succ_mod_ne {n i : Nat} (hn : 2 ≤ n) (hi : i < n) : (i + 1) % n ≠ i := by
  rcases Nat.lt_or_ge (i + 1) n with h | h
  · rw [Nat.mod_eq_of_lt h]; omega
  · have he : i + 1 = n := by omega
    rw [he, Nat.mod_self]; omega

/-! Projections of the trackAction prologue: it touches only
last_action_count and players_acted_this_round. -/

@[simp] theorem trackAction_players (g : Game) : (trackAction g).players = g.players := by
  unfold trackAction; dsimp only; split <;> rfl

@[simp] theorem trackAction_pot (g : Game) : (trackAction g).pot = g.pot := by
  unfold trackAction; dsimp only; split <;> rfl

@[simp] theorem trackAction_contrib (g : Game) :
    (trackAction g).player_contributions_this_round
      = g.player_contributions_this_round := by
  unfold trackAction; dsimp only; split <;> rfl

@[simp] theorem trackAction_min_bet (g : Game) :
    (trackAction g).min_bet = g.min_bet := by
  unfold trackAction; dsimp only; split <;> rfl

@[simp] theorem trackAction_idx (g : Game) :
    (trackAction g).current_player_idx = g.current_player_idx := by
  unfold trackAction; dsimp only; split <;> rfl

/-- Explicit value of the convert-to-call block: it always succeeds, moving
min(highest_bet - player_current_bet, chips) from the acting player to the
pot. -/
theorem convertToCall_eq (gB : Game) (idx hb cur : Nat) :
    convertToCall gB idx hb cur =
      some ({ gB with
                players := gB.players.set idx
                  { gB.players.getD idx defaultPlayer with
                      chips := (gB.players.getD idx defaultPlayer).chips
                        - min (hb - cur) (gB.players.getD idx defaultPlayer).chips,
                      current_bet := (gB.players.getD idx defaultPlayer).current_bet
                        + min (hb - cur) (gB.players.getD idx defaultPlayer).chips },
                pot := gB.pot
                  + min (hb - cur) (gB.players.getD idx defaultPlayer).chips,
                player_contributions_this_round :=
                  gB.player_contributions_this_round.set idx
                    (gB.player_contributions_this_round.getD idx 0
                      + min (hb - cur) (gB.players.getD idx defaultPlayer).chips) },
            .Call,
            some ((gB.players.getD idx defaultPlayer).current_bet
                   + min (hb - cur) (gB.players.getD idx defaultPlayer).chips)) := by
  unfold convertToCall
  dsimp only
  rw [checkedSub_of_le (min_le_right _ _)]

/-- The effect of replacing seat idx by a player holding m fewer chips:
chips do not increase, the decrease is exactly m, and the table total drops
by exactly m. -/
theorem chips_pot_facts (ps : List Player) (idx : Nat) (pnew : Player) (m : Nat)
    (hm : m ≤ (ps.getD idx defaultPlayer).chips)
    (hchips : pnew.chips = (ps.getD idx defaultPlayer).chips - m) :
    ((ps.set idx pnew).getD idx defaultPlayer).chips
        ≤ (ps.getD idx defaultPlayer).chips
    ∧ (ps.getD idx defaultPlayer).chips
        - ((ps.set idx pnew).getD idx defaultPlayer).chips = m
    ∧ sumChips (ps.set idx pnew) + m = sumChips ps := by
  by_cases h : idx < ps.length
  · rw [getD_set_self, if_pos h]
    have hs := sumChips_set ps idx h pnew
    exact ⟨by omega, by omega, by omega⟩
  · have hle : ps.length ≤ idx := Nat.le_of_not_lt h
    have h0 : ps.getD idx defaultPlayer = defaultPlayer := getD_oob ps hle _
    rw [set_oob ps hle, h0]
    rw [h0] at hm
    have hm0 : m = 0 := Nat.le_zero.mp hm
    subst hm0
    exact ⟨le_refl _, by omega, by omega⟩

/-- Adding to an entry of the contributions vector never shrinks it. -/
theorem contrib_mono (l : List Nat) (idx m : Nat) :
    l.getD idx 0 ≤ (l.set idx (l.getD idx 0 + m)).getD idx 0 := by
  by_cases h : idx < l.length
  · rw [getD_set_self, if_pos h]; omega
  · rw [set_oob l (Nat.le_of_not_lt h)]

/-- The per-call contract of perform_action that several claims rely on:
relative to the input state, the acting player's chips never increase, the
pot never decreases, the chip decrease equals the pot increase, chips plus
pot are conserved table-wide, the player list keeps its length, the acting
index is unchanged and the acting player's recorded contribution never
shrinks. -/
def ActionOk (g : Game) (r : Game × GameAction × Option Nat) : Prop :=
  (r.1.players.getD g.current_player_idx defaultPlayer).chips
      ≤ (g.players.getD g.current_player_idx defaultPlayer).chips
  ∧ g.pot ≤ r.1.pot
  ∧ (g.players.getD g.current_player_idx defaultPlayer).chips
      - (r.1.players.getD g.current_player_idx defaultPlayer).chips
      = r.1.pot - g.pot
  ∧ sumChips r.1.players + r.1.pot = sumChips g.players + g.pot
  ∧ r.1.players.length = g.players.length
  ∧ r.1.current_player_idx = g.current_player_idx
  ∧ g.player_contributions_this_round.getD g.current_player_idx 0
      ≤ r.1.player_contributions_this_round.getD g.current_player_idx 0

theorem actionOk_of_move (g : Game) (r : Game × GameAction × Option Nat)
    (pnew : Player) (m : Nat)
    (hm : m ≤ (g.players.getD g.current_player_idx defaultPlayer).chips)
    (hchips : pnew.chips
      = (g.players.getD g.current_player_idx defaultPlayer).chips - m)
    (hp : r.1.players = g.players.set g.current_player_idx pnew)
    (hpot : r.1.pot = g.pot + m)
    (hidx : r.1.current_player_idx = g.current_player_idx)
    (hcontrib : g.player_contributions_this_round.getD g.current_player_idx 0
      ≤ r.1.player_contributions_this_round.getD g.current_player_idx 0) :
    ActionOk g r := by
  obtain ⟨h1, h2, h3⟩ :=
    chips_pot_facts g.players g.current_player_idx pnew m hm hchips
  unfold ActionOk
  rw [hp, hpot, hidx]
  refine ⟨h1, by omega, by omega, by omega, List.length_set .., rfl, hcontrib⟩

theorem actionOk_of_id (g : Game) (r : Game × GameAction × Option Nat)
    (hp : r.1.players = g.players)
    (hpot : r.1.pot = g.pot)
    (hidx : r.1.current_player_idx = g.current_player_idx)
    (hcontrib : r.1.player_contributions_this_round
      = g.player_contributions_this_round) :
    ActionOk g r := by
  unfold ActionOk
  rw [hp, hpot, hidx, hcontrib]
  exact ⟨le_refl _, le_refl _, by omega, by omega, rfl, rfl, le_refl _⟩


theorem pa_total_fold (g : Game) :
    ∃ r, perform_action g GameAction.Fold = some r ∧ ActionOk g r := by
  simp only [perform_action, trackAction_players, trackAction_pot,
    trackAction_contrib, trackAction_idx]
  have hfacts := chips_pot_facts g.players g.current_player_idx
      { g.players.getD g.current_player_idx defaultPlayer with folded := true } 0
      (Nat.zero_le _) (by simp)
  rw [checkedSub_of_le (le_refl _), checkedSub_of_le (le_refl _),
      checkedSub_of_le hfacts.1]
  exact ⟨_, rfl, actionOk_of_move g _ _ 0 (Nat.zero_le _) (by simp) rfl
    (Nat.add_zero g.pot).symm rfl (le_refl _)⟩

theorem pa_total_call (g : Game) :
    ∃ r, perform_action g GameAction.Call = some r ∧ ActionOk g r := by
  by_cases hcb : highestBet g
      ≤ (g.players.getD g.current_player_idx defaultPlayer).current_bet
  · simp only [perform_action, trackAction_players, trackAction_pot,
      trackAction_contrib, trackAction_idx, if_pos hcb]
    rw [checkedSub_of_le (le_refl _), checkedSub_of_le (le_refl _),
        checkedSub_of_le (le_refl _)]
    exact ⟨_, rfl, actionOk_of_id g _ (trackAction_players g) (trackAction_pot g)
      (trackAction_idx g) (trackAction_contrib g)⟩
  · simp only [perform_action, if_neg hcb, convertToCall_eq, trackAction_players,
      trackAction_pot, trackAction_contrib, trackAction_idx]
    rw [checkedSub_of_le (contrib_mono g.player_contributions_this_round
          g.current_player_idx _),
        checkedSub_of_le (Nat.le_add_right _ _)]
    have hfacts := chips_pot_facts g.players g.current_player_idx
        { g.players.getD g.current_player_idx defaultPlayer with
            chips := (g.players.getD g.current_player_idx defaultPlayer).chips
              - min (highestBet g
                  - (g.players.getD g.current_player_idx defaultPlayer).current_bet)
                  (g.players.getD g.current_player_idx defaultPlayer).chips,
            current_bet := (g.players.getD g.current_player_idx defaultPlayer).current_bet
              + min (highestBet g
                  - (g.players.getD g.current_player_idx defaultPlayer).current_bet)
                  (g.players.getD g.current_player_idx defaultPlayer).chips }
        (min (highestBet g
            - (g.players.getD g.current_player_idx defaultPlayer).current_bet)
            (g.players.getD g.current_player_idx defaultPlayer).chips)
        (min_le_right _ _) rfl
    rw [checkedSub_of_le hfacts.1]
    exact ⟨_, rfl, actionOk_of_move g _ _ _ (min_le_right _ _) rfl rfl rfl rfl
      (contrib_mono _ _ _)⟩



theorem pa_total_check (g : Game) :
    ∃ r, perform_action g GameAction.Check = some r ∧ ActionOk g r := by
  by_cases hcb : (g.players.getD g.current_player_idx defaultPlayer).current_bet
      < highestBet g
  · simp only [perform_action, if_pos hcb, convertToCall_eq, trackAction_players,
      trackAction_pot, trackAction_contrib, trackAction_idx]
    rw [checkedSub_of_le (contrib_mono g.player_contributions_this_round
          g.current_player_idx _),
        checkedSub_of_le (Nat.le_add_right _ _)]
    have hfacts := chips_pot_facts g.players g.current_player_idx
        { g.players.getD g.current_player_idx defaultPlayer with
            chips := (g.players.getD g.current_player_idx defaultPlayer).chips
              - min (highestBet g
                  - (g.players.getD g.current_player_idx defaultPlayer).current_bet)
                  (g.players.getD g.current_player_idx defaultPlayer).chips,
            current_bet := (g.players.getD g.current_player_idx defaultPlayer).current_bet
              + min (highestBet g
                  - (g.players.getD g.current_player_idx defaultPlayer).current_bet)
                  (g.players.getD g.current_player_idx defaultPlayer).chips }
        (min (highestBet g
            - (g.players.getD g.current_player_idx defaultPlayer).current_bet)
            (g.players.getD g.current_player_idx defaultPlayer).chips)
        (min_le_right _ _) rfl
    rw [checkedSub_of_le hfacts.1]
    exact ⟨_, rfl, actionOk_of_move g _ _ _ (min_le_right _ _) rfl rfl rfl rfl
      (contrib_mono _ _ _)⟩
  · simp only [perform_action, if_neg hcb, trackAction_players, trackAction_pot,
      trackAction_contrib, trackAction_idx]
    rw [checkedSub_of_le (le_refl _), checkedSub_of_le (le_refl _),
        checkedSub_of_le (le_refl _)]
    exact ⟨_, rfl, actionOk_of_id g _ (trackAction_players g) (trackAction_pot g)
      (trackAction_idx g) (trackAction_contrib g)⟩

theorem pa_total_raise (g : Game) (amount : Nat) :
    ∃ r, perform_action g (GameAction.Raise amount) = some r ∧ ActionOk g r := by
  by_cases hfb : (highestBet g == 0) = true
  · -- opening bet
    by_cases hsmall : min amount (g.players.getD g.current_player_idx
        defaultPlayer).chips < g.min_bet
    · simp only [perform_action, trackAction_players, trackAction_pot,
        trackAction_contrib, trackAction_idx, trackAction_min_bet,
        if_pos hfb, if_pos hsmall]
      rw [checkedSub_of_le (le_refl _), checkedSub_of_le (le_refl _),
          checkedSub_of_le (le_refl _)]
      exact ⟨_, rfl, actionOk_of_id g _ (trackAction_players g) (trackAction_pot g)
        (trackAction_idx g) (trackAction_contrib g)⟩
    · simp only [perform_action, trackAction_players, trackAction_pot,
        trackAction_contrib, trackAction_idx, trackAction_min_bet,
        if_pos hfb, if_neg hsmall]
      rw [checkedSub_of_le (min_le_right amount _)]
      dsimp only
      rw [checkedSub_of_le (contrib_mono g.player_contributions_this_round
            g.current_player_idx _),
          checkedSub_of_le (Nat.le_add_right _ _)]
      have hfacts := chips_pot_facts g.players g.current_player_idx
          { g.players.getD g.current_player_idx defaultPlayer with
              chips := (g.players.getD g.current_player_idx defaultPlayer).chips
                - min amount (g.players.getD g.current_player_idx defaultPlayer).chips,
              current_bet :=
                min amount (g.players.getD g.current_player_idx defaultPlayer).chips }
          (min amount (g.players.getD g.current_player_idx defaultPlayer).chips)
          (min_le_right _ _) rfl
      rw [checkedSub_of_le hfacts.1]
      exact ⟨_, rfl, actionOk_of_move g _ _ _ (min_le_right _ _) rfl rfl rfl rfl
        (contrib_mono _ _ _)⟩
  · -- facing an existing bet
    by_cases hsmall : (g.players.getD g.current_player_idx
        defaultPlayer).current_bet + amount < highestBet g + g.min_bet
    · by_cases howed : (g.players.getD g.current_player_idx
          defaultPlayer).current_bet < highestBet g
      · simp only [perform_action, trackAction_players, trackAction_pot,
          trackAction_contrib, trackAction_idx, trackAction_min_bet,
          if_neg hfb, if_pos hsmall, if_pos howed, convertToCall_eq]
        rw [checkedSub_of_le (contrib_mono g.player_contributions_this_round
              g.current_player_idx _),
            checkedSub_of_le (Nat.le_add_right _ _)]
        have hfacts := chips_pot_facts g.players g.current_player_idx
            { g.players.getD g.current_player_idx defaultPlayer with
                chips := (g.players.getD g.current_player_idx defaultPlayer).chips
                  - min (highestBet g
                      - (g.players.getD g.current_player_idx defaultPlayer).current_bet)
                      (g.players.getD g.current_player_idx defaultPlayer).chips,
                current_bet := (g.players.getD g.current_player_idx defaultPlayer).current_bet
                  + min (highestBet g
                      - (g.players.getD g.current_player_idx defaultPlayer).current_bet)
                      (g.players.getD g.current_player_idx defaultPlayer).chips }
            (min (highestBet g
                - (g.players.getD g.current_player_idx defaultPlayer).current_bet)
                (g.players.getD g.current_player_idx defaultPlayer).chips)
            (min_le_right _ _) rfl
        rw [checkedSub_of_le hfacts.1]
        exact ⟨_, rfl, actionOk_of_move g _ _ _ (min_le_right _ _) rfl rfl rfl rfl
          (contrib_mono _ _ _)⟩
      · simp only [perform_action, trackAction_players, trackAction_pot,
          trackAction_contrib, trackAction_idx, trackAction_min_bet,
          if_neg hfb, if_pos hsmall, if_neg howed]
        rw [checkedSub_of_le (le_refl _), checkedSub_of_le (le_refl _),
            checkedSub_of_le (le_refl _)]
        exact ⟨_, rfl, actionOk_of_id g _ (trackAction_players g)
          (trackAction_pot g) (trackAction_idx g) (trackAction_contrib g)⟩
    · simp only [perform_action, trackAction_players, trackAction_pot,
        trackAction_contrib, trackAction_idx, trackAction_min_bet,
        if_neg hfb, if_neg hsmall]
      rw [checkedSub_of_le (min_le_right _ _)]
      dsimp only
      rw [checkedSub_of_le (contrib_mono g.player_contributions_this_round
            g.current_player_idx _),
          checkedSub_of_le (Nat.le_add_right _ _)]
      have hfacts := chips_pot_facts g.players g.current_player_idx
          { g.players.getD g.current_player_idx defaultPlayer with
              chips := (g.players.getD g.current_player_idx defaultPlayer).chips
                - min ((g.players.getD g.current_player_idx defaultPlayer).current_bet
                    + amount
                    - (g.players.getD g.current_player_idx defaultPlayer).current_bet)
                    (g.players.getD g.current_player_idx defaultPlayer).chips,
              current_bet := (g.players.getD g.current_player_idx defaultPlayer).current_bet
                + min ((g.players.getD g.current_player_idx defaultPlayer).current_bet
                    + amount
                    - (g.players.getD g.current_player_idx defaultPlayer).current_bet)
                    (g.players.getD g.current_player_idx defaultPlayer).chips }
          (min ((g.players.getD g.current_player_idx defaultPlayer).current_bet
              + amount
              - (g.players.getD g.current_player_idx defaultPlayer).current_bet)
              (g.players.getD g.current_player_idx defaultPlayer).chips)
          (min_le_right _ _) rfl
      rw [checkedSub_of_le hfacts.1]
      exact ⟨_, rfl, actionOk_of_move g _ _ _ (min_le_right _ _) rfl rfl rfl rfl
        (contrib_mono _ _ _)⟩


/-- perform_action always returns a result satisfying the per-call
contract. -/
theorem perform_action_total (g : Game) (a : GameAction) :
    ∃ r, perform_action g a = some r ∧ ActionOk g r := by
  cases a with
  | Fold => exact pa_total_fold g
  | Call => exact pa_total_call g
  | Raise amount => exact pa_total_raise g amount
  | Check => exact pa_total_check g

/-- A concrete state used by witnesses: three players at a Flop table, with
the bet of seat 1 at 10 and seat 0 (to act, with 100 chips and no bet yet)
owing 10. -/
def witnessGame : Game :=
  { players :=
      [{ name := "", hand := [], chips := 100, current_bet := 0,
         folded := false, is_bot := false, bot_difficulty := .Easy },
       { name := "", hand := [], chips := 90, current_bet := 10,
         folded := false, is_bot := true, bot_difficulty := .Easy },
       { name := "", hand := [], chips := 100, current_bet := 0,
         folded := false, is_bot := true, bot_difficulty := .Easy }],
    deck := [], community_cards := [], pot := 10, current_player_idx := 0,
    min_bet := 10, round := .Flop, dealer_idx := 0, small_blind_idx := 1,
    big_blind_idx := 2, last_action_count := 1, bb_has_acted_preflop := false,
    players_acted_this_round := [1], last_aggressor := some 1,
    round_action_complete := false,
    player_contributions_this_round := [0, 10, 0] }

/-- C2: for every game state and every requested action, after
perform_action returns, the acting player's chip decrease equals the pot
increase — chips_before - chips_after = pot_after - pot_before, with chips
really non-increasing and the pot really non-decreasing — in every branch,
including downgraded actions and Fold. -/
theorem C2_chip_decrease_equals_pot_increase (g : Game) (a : GameAction)
    (g' : Game) (act : GameAction) (tb : Option Nat)
    (h : perform_action g a = some (g', act, tb)) :
    (g'.players.getD g.current_player_idx defaultPlayer).chips
        ≤ (g.players.getD g.current_player_idx defaultPlayer).chips
    ∧ g.pot ≤ g'.pot
    ∧ (g.players.getD g.current_player_idx defaultPlayer).chips
        - (g'.players.getD g.current_player_idx defaultPlayer).chips
        = g'.pot - g.pot := by
  obtain ⟨r, hr, hok⟩ := perform_action_total g a
  rw [h] at hr
  have hr' : (g', act, tb) = r := by injection hr
  subst hr'
  exact ⟨hok.1, hok.2.1, hok.2.2.1⟩

/-- Witness for C2: at witnessGame a requested Check (which the engine
converts to a Call of 10) decreases the actor's chips by exactly the pot
increase. -/
theorem C2_chip_decrease_equals_pot_increase_witness :
    ∃ g' act tb,
      perform_action witnessGame GameAction.Check = some (g', act, tb)
      ∧ (witnessGame.players.getD witnessGame.current_player_idx
            defaultPlayer).chips
          - (g'.players.getD witnessGame.current_player_idx
              defaultPlayer).chips
        = g'.pot - witnessGame.pot := by
  refine ⟨_, _, _, rfl, ?_⟩
  exact (C2_chip_decrease_equals_pot_increase witnessGame GameAction.Check
    _ _ _ rfl).2.2

/-- C9: perform_action never panics from unsigned-integer underflow — on
every input every one of its u32 subtractions succeeds, so it returns some
result; indeed the acting player's chips only decrease (each deduction being
capped by min at the remaining chips), while the pot and the player's
recorded contribution only grow, so chips remain well-defined non-negative
values. -/
theorem C9_no_underflow_panic (g : Game) (a : GameAction) :
    ∃ r, perform_action g a = some r
      ∧ (r.1.players.getD g.current_player_idx defaultPlayer).chips
          ≤ (g.players.getD g.current_player_idx defaultPlayer).chips
      ∧ g.pot ≤ r.1.pot
      ∧ g.player_contributions_this_round.getD g.current_player_idx 0
          ≤ r.1.player_contributions_this_round.getD g.current_player_idx 0 := by
  obtain ⟨r, hr, hok⟩ := perform_action_total g a
  exact ⟨r, hr, hok.1, hok.2.1, hok.2.2.2.2.2.2⟩

/-- C4: a requested Check by a player whose current_bet is below the table's
highest bet is performed as a Call moving min(highest_bet - current_bet,
chips) from the player's chips into the pot, and a requested Call by a
player whose current_bet already equals the highest bet is performed as a
Check moving no chips; the returned actual-action value reports the
downgrade in both cases. -/
theorem C4_check_and_call_downgrades (g : Game) :
    ((g.players.getD g.current_player_idx defaultPlayer).current_bet
        < highestBet g →
      ∃ g', perform_action g GameAction.Check
          = some (g', GameAction.Call,
              some ((g.players.getD g.current_player_idx
                  defaultPlayer).current_bet
                + min (highestBet g
                    - (g.players.getD g.current_player_idx
                        defaultPlayer).current_bet)
                    (g.players.getD g.current_player_idx defaultPlayer).chips))
        ∧ g'.pot = g.pot
            + min (highestBet g
                - (g.players.getD g.current_player_idx
                    defaultPlayer).current_bet)
                (g.players.getD g.current_player_idx defaultPlayer).chips
        ∧ (g.players.getD g.current_player_idx defaultPlayer).chips
            - (g'.players.getD g.current_player_idx defaultPlayer).chips
          = min (highestBet g
              - (g.players.getD g.current_player_idx
                  defaultPlayer).current_bet)
              (g.players.getD g.current_player_idx defaultPlayer).chips)
    ∧ ((g.players.getD g.current_player_idx defaultPlayer).current_bet
        = highestBet g →
      ∃ g', perform_action g GameAction.Call
          = some (g', GameAction.Check,
              some (g.players.getD g.current_player_idx
                  defaultPlayer).current_bet)
        ∧ g'.players = g.players ∧ g'.pot = g.pot) := by
  constructor
  · intro hcb
    simp only [perform_action, if_pos hcb, convertToCall_eq, trackAction_players,
      trackAction_pot, trackAction_contrib, trackAction_idx]
    rw [checkedSub_of_le (contrib_mono g.player_contributions_this_round
          g.current_player_idx _),
        checkedSub_of_le (Nat.le_add_right _ _)]
    have hfacts := chips_pot_facts g.players g.current_player_idx
        { g.players.getD g.current_player_idx defaultPlayer with
            chips := (g.players.getD g.current_player_idx defaultPlayer).chips
              - min (highestBet g
                  - (g.players.getD g.current_player_idx
                      defaultPlayer).current_bet)
                  (g.players.getD g.current_player_idx defaultPlayer).chips,
            current_bet := (g.players.getD g.current_player_idx
                defaultPlayer).current_bet
              + min (highestBet g
                  - (g.players.getD g.current_player_idx
                      defaultPlayer).current_bet)
                  (g.players.getD g.current_player_idx defaultPlayer).chips }
        (min (highestBet g
            - (g.players.getD g.current_player_idx defaultPlayer).current_bet)
            (g.players.getD g.current_player_idx defaultPlayer).chips)
        (min_le_right _ _) rfl
    rw [checkedSub_of_le hfacts.1]
    exact ⟨_, rfl, rfl, hfacts.2.1⟩
  · intro heq
    have hle : highestBet g
        ≤ (g.players.getD g.current_player_idx defaultPlayer).current_bet :=
      le_of_eq heq.symm
    simp only [perform_action, if_pos hle, trackAction_players,
      trackAction_pot, trackAction_contrib, trackAction_idx]
    rw [checkedSub_of_le (le_refl _), checkedSub_of_le (le_refl _),
        checkedSub_of_le (le_refl _)]
    exact ⟨_, rfl, trackAction_players g, trackAction_pot g⟩

/-- C3: when the acting player faces an existing bet (highest_bet > 0) and
requests Raise(amount): if current_bet + amount is below highest_bet +
min_bet the raise is downgraded — to a Call of min(highest_bet -
current_bet, chips) when an amount is owed, to a Check when nothing is owed;
otherwise the raise is committed capped by the chip stack, the player
becomes last_aggressor and players_acted_this_round is reset to contain only
that player. -/
theorem C3_raise_facing_existing_bet (g : Game) (amount : Nat)
    (h0 : 0 < highestBet g) :
    ((g.players.getD g.current_player_idx defaultPlayer).current_bet + amount
        < highestBet g + g.min_bet →
      (g.players.getD g.current_player_idx defaultPlayer).current_bet
          < highestBet g →
      ∃ g', perform_action g (GameAction.Raise amount)
          = some (g', GameAction.Call,
              some ((g.players.getD g.current_player_idx
                  defaultPlayer).current_bet
                + min (highestBet g
                    - (g.players.getD g.current_player_idx
                        defaultPlayer).current_bet)
                    (g.players.getD g.current_player_idx defaultPlayer).chips))
        ∧ g'.pot = g.pot
            + min (highestBet g
                - (g.players.getD g.current_player_idx
                    defaultPlayer).current_bet)
                (g.players.getD g.current_player_idx defaultPlayer).chips
        ∧ (g.players.getD g.current_player_idx defaultPlayer).chips
            - (g'.players.getD g.current_player_idx defaultPlayer).chips
          = min (highestBet g
              - (g.players.getD g.current_player_idx
                  defaultPlayer).current_bet)
              (g.players.getD g.current_player_idx defaultPlayer).chips)
    ∧ ((g.players.getD g.current_player_idx defaultPlayer).current_bet + amount
        < highestBet g + g.min_bet →
      ¬ (g.players.getD g.current_player_idx defaultPlayer).current_bet
          < highestBet g →
      ∃ g', perform_action g (GameAction.Raise amount)
          = some (g', GameAction.Check,
              some (g.players.getD g.current_player_idx
                  defaultPlayer).current_bet)
        ∧ g'.players = g.players ∧ g'.pot = g.pot)
    ∧ (highestBet g + g.min_bet
        ≤ (g.players.getD g.current_player_idx defaultPlayer).current_bet
            + amount →
      ∃ g', perform_action g (GameAction.Raise amount)
          = some (g', GameAction.Raise (min amount
                (g.players.getD g.current_player_idx defaultPlayer).chips),
              some ((g.players.getD g.current_player_idx
                  defaultPlayer).current_bet
                + min amount
                    (g.players.getD g.current_player_idx defaultPlayer).chips))
        ∧ g'.pot = g.pot
            + min amount
                (g.players.getD g.current_player_idx defaultPlayer).chips
        ∧ (g.players.getD g.current_player_idx defaultPlayer).chips
            - (g'.players.getD g.current_player_idx defaultPlayer).chips
          = min amount
              (g.players.getD g.current_player_idx defaultPlayer).chips
        ∧ g'.last_aggressor = some g.current_player_idx
        ∧ g'.players_acted_this_round = [g.current_player_idx]) := by
  have hfb : ¬ ((highestBet g == 0) = true) := by
    intro hc
    exact h0.ne' (by simpa using hc)
  refine ⟨?_, ?_, ?_⟩
  · intro hsmall howed
    simp only [perform_action, trackAction_players, trackAction_pot,
      trackAction_contrib, trackAction_idx, trackAction_min_bet,
      if_neg hfb, if_pos hsmall, if_pos howed, convertToCall_eq]
    rw [checkedSub_of_le (contrib_mono g.player_contributions_this_round
          g.current_player_idx _),
        checkedSub_of_le (Nat.le_add_right _ _)]
    have hfacts := chips_pot_facts g.players g.current_player_idx
        { g.players.getD g.current_player_idx defaultPlayer with
            chips := (g.players.getD g.current_player_idx defaultPlayer).chips
              - min (highestBet g
                  - (g.players.getD g.current_player_idx
                      defaultPlayer).current_bet)
                  (g.players.getD g.current_player_idx defaultPlayer).chips,
            current_bet := (g.players.getD g.current_player_idx
                defaultPlayer).current_bet
              + min (highestBet g
                  - (g.players.getD g.current_player_idx
                      defaultPlayer).current_bet)
                  (g.players.getD g.current_player_idx defaultPlayer).chips }
        (min (highestBet g
            - (g.players.getD g.current_player_idx defaultPlayer).current_bet)
            (g.players.getD g.current_player_idx defaultPlayer).chips)
        (min_le_right _ _) rfl
    rw [checkedSub_of_le hfacts.1]
    exact ⟨_, rfl, rfl, hfacts.2.1⟩
  · intro hsmall howed
    simp only [perform_action, trackAction_players, trackAction_pot,
      trackAction_contrib, trackAction_idx, trackAction_min_bet,
      if_neg hfb, if_pos hsmall, if_neg howed]
    rw [checkedSub_of_le (le_refl _), checkedSub_of_le (le_refl _),
        checkedSub_of_le (le_refl _)]
    exact ⟨_, rfl, trackAction_players g, trackAction_pot g⟩
  · intro hbig
    have hsmall : ¬ ((g.players.getD g.current_player_idx
        defaultPlayer).current_bet + amount < highestBet g + g.min_bet) :=
      Nat.not_lt.mpr hbig
    simp only [perform_action, trackAction_players, trackAction_pot,
      trackAction_contrib, trackAction_idx, trackAction_min_bet,
      if_neg hfb, if_neg hsmall, Nat.add_sub_cancel_left]
    rw [checkedSub_of_le (min_le_right _ _)]
    dsimp only
    rw [checkedSub_of_le (contrib_mono g.player_contributions_this_round
          g.current_player_idx _),
        checkedSub_of_le (Nat.le_add_right _ _)]
    have hfacts := chips_pot_facts g.players g.current_player_idx
        { g.players.getD g.current_player_idx defaultPlayer with
            chips := (g.players.getD g.current_player_idx defaultPlayer).chips
              - min amount
                  (g.players.getD g.current_player_idx defaultPlayer).chips,
            current_bet := (g.players.getD g.current_player_idx
                defaultPlayer).current_bet
              + min amount
                  (g.players.getD g.current_player_idx defaultPlayer).chips }
        (min amount (g.players.getD g.current_player_idx defaultPlayer).chips)
        (min_le_right _ _) rfl
    rw [checkedSub_of_le hfacts.1]
    exact ⟨_, rfl, rfl, hfacts.2.1, rfl, rfl⟩

/-- Witness for C4: at witnessGame (current bet 0 below highest bet 10) a
requested Check is performed as a Call of 10. -/
theorem C4_check_and_call_downgrades_witness :
    (witnessGame.players.getD witnessGame.current_player_idx
        defaultPlayer).current_bet < highestBet witnessGame
    ∧ ∃ g', perform_action witnessGame GameAction.Check
        = some (g', GameAction.Call, some 10) := by
  refine ⟨by decide, ?_⟩
  obtain ⟨g', heq, -, -⟩ :=
    (C4_check_and_call_downgrades witnessGame).1 (by decide)
  exact ⟨g', heq⟩

/-- Witness for C3, the spec's scenario: Raise(3) with highest_bet = 10,
min_bet = 10, current_bet = 0 (target 3 < 20) is downgraded to a Call of
10. -/
theorem C3_raise_facing_existing_bet_witness :
    0 < highestBet witnessGame
    ∧ ∃ g', perform_action witnessGame (GameAction.Raise 3)
        = some (g', GameAction.Call, some 10)
        ∧ g'.pot = witnessGame.pot + 10 := by
  refine ⟨by decide, ?_⟩
  obtain ⟨g', heq, hpot, -⟩ :=
    (C3_raise_facing_existing_bet witnessGame 3 (by decide)).1
      (by decide) (by decide)
  exact ⟨g', heq, hpot⟩

theorem postBlinds_conserves (g : Game)
    (hn : 2 ≤ g.players.length)
    (hsb_lt : g.small_blind_idx < g.players.length)
    (hbb_lt : g.big_blind_idx < g.players.length)
    (hne : g.small_blind_idx ≠ g.big_blind_idx)
    (hante : ∀ p ∈ g.players, 1 ≤ p.chips)
    (hsb : 1 + g.min_bet / 2
      ≤ (g.players.getD g.small_blind_idx defaultPlayer).chips)
    (hbb : 1 + g.min_bet
      ≤ (g.players.getD g.big_blind_idx defaultPlayer).chips) :
    sumChips (postBlinds g).players + (postBlinds g).pot
      = sumChips g.players + g.pot := by
  unfold postBlinds
  dsimp only
  rw [if_pos hn]
  dsimp only
  set anted := g.players.map (fun p => { p with chips := p.chips - 1 })
    with hanted
  set psb : Player := { anted.getD g.small_blind_idx defaultPlayer with
      chips := (anted.getD g.small_blind_idx defaultPlayer).chips
        - g.min_bet / 2,
      current_bet := g.min_bet / 2 } with hpsb
  set ps1 := anted.set g.small_blind_idx psb with hps1
  set pbb : Player := { ps1.getD g.big_blind_idx defaultPlayer with
      chips := (ps1.getD g.big_blind_idx defaultPlayer).chips - g.min_bet,
      current_bet := g.min_bet } with hpbb
  set ps2 := ps1.set g.big_blind_idx pbb with hps2
  have hlenA : anted.length = g.players.length := List.length_map _ _
  have h1 : sumChips anted + g.players.length = sumChips g.players :=
    ante_sum _ hante
  have hA : (anted.getD g.small_blind_idx defaultPlayer).chips
      = (g.players.getD g.small_blind_idx defaultPlayer).chips - 1 :=
    getD_chips_map_sub _ hsb_lt
  have hB : (anted.getD g.big_blind_idx defaultPlayer).chips
      = (g.players.getD g.big_blind_idx defaultPlayer).chips - 1 :=
    getD_chips_map_sub _ hbb_lt
  have hS1 : sumChips ps1 + (anted.getD g.small_blind_idx defaultPlayer).chips
      = sumChips anted + psb.chips :=
    sumChips_set anted g.small_blind_idx (by omega) psb
  have hpsbchips : psb.chips
      = (anted.getD g.small_blind_idx defaultPlayer).chips - g.min_bet / 2 :=
    rfl
  have hbbgetD : (ps1.getD g.big_blind_idx defaultPlayer).chips
      = (anted.getD g.big_blind_idx defaultPlayer).chips := by
    rw [hps1, getD_set_ne anted hne psb defaultPlayer]
  have hlen1 : ps1.length = g.players.length := by
    rw [hps1, List.length_set, hlenA]
  have hS2 : sumChips ps2 + (ps1.getD g.big_blind_idx defaultPlayer).chips
      = sumChips ps1 + pbb.chips :=
    sumChips_set ps1 g.big_blind_idx (by omega) pbb
  have hpbbchips : pbb.chips
      = (ps1.getD g.big_blind_idx defaultPlayer).chips - g.min_bet := rfl
  omega

/-- The small-blind seat deal_cards rotates to: two seats past the old
dealer. -/
def sbIdxAfterDeal (g : Game) : Nat :=
  (((g.dealer_idx + 1) % g.players.length) + 1) % g.players.length

/-- The big-blind seat deal_cards rotates to: one seat past the new small
blind. -/
def bbIdxAfterDeal (g : Game) : Nat :=
  (sbIdxAfterDeal g + 1) % g.players.length

theorem chipsMap_deal_stage (shuffle : List Card → List Card) (g : Game) :
    ((dealHole (dealPrep shuffle g)).players).map (·.chips)
      = g.players.map (·.chips) := by
  unfold dealHole
  dsimp only
  rw [chipsMap_dealRound, chipsMap_dealRound]
  unfold dealPrep
  dsimp only
  rw [List.map_map]
  exact List.map_congr_left (fun a _ => rfl)

theorem mem_getD {α : Type _} (l : List α) (d : α) {q : α} (hq : q ∈ l) :
    ∃ i, i < l.length ∧ l.getD i d = q := by
  induction l with
  | nil => cases hq
  | cons a t ih =>
    rcases List.mem_cons.mp hq with h | h
    · exact ⟨0, by simp, by simp [h.symm]⟩
    · obtain ⟨i, hi, he⟩ := ih h
      exact ⟨i + 1, by simpa using hi, by simpa using he⟩

theorem chips_lb_of_chipsMap (ps qs : List Player)
    (hmap : ps.map (·.chips) = qs.map (·.chips))
    (hq : ∀ q ∈ qs, 1 ≤ q.chips) : ∀ p ∈ ps, 1 ≤ p.chips := by
  intro p hp
  have hmem : p.chips ∈ ps.map (·.chips) := List.mem_map_of_mem _ hp
  rw [hmap] at hmem
  obtain ⟨q, hq', he⟩ := List.mem_map.mp hmem
  rw [← he]
  exact hq q hq'

/-- Conservation through deal_cards: when every player covers the ante and
the incoming small- and big-blind players cover their blinds on top of it,
posting antes and blinds moves chips into the pot without creating or
destroying any. -/
theorem deal_cards_conserves (shuffle : List Card → List Card) (g : Game)
    (hn : 2 ≤ g.players.length)
    (hcov : ∀ i, i < g.players.length →
      1 + (if i = sbIdxAfterDeal g then g.min_bet / 2 else 0)
        + (if i = bbIdxAfterDeal g then g.min_bet else 0)
      ≤ (g.players.getD i defaultPlayer).chips) :
    sumChips (deal_cards shuffle g).players + (deal_cards shuffle g).pot
      = sumChips g.players := by
  have hmap := chipsMap_deal_stage shuffle g
  have hlen : (dealHole (dealPrep shuffle g)).players.length
      = g.players.length := by
    have := congrArg List.length hmap
    simpa using this
  have hchipsAt : ∀ i, ((dealHole (dealPrep shuffle g)).players.getD i
      defaultPlayer).chips = (g.players.getD i defaultPlayer).chips := by
    intro i
    rw [getD_chips, getD_chips, hmap]
  have hsum : sumChips (dealHole (dealPrep shuffle g)).players
      = sumChips g.players := by
    unfold sumChips
    rw [hmap]
  have hsb_seat : (dealHole (dealPrep shuffle g)).small_blind_idx
      = sbIdxAfterDeal g := rfl
  have hbb_seat : (dealHole (dealPrep shuffle g)).big_blind_idx
      = bbIdxAfterDeal g := rfl
  have hnz : 0 < g.players.length := by omega
  have hsb_lt : sbIdxAfterDeal g < g.players.length := Nat.mod_lt _ hnz
  have hbb_ne : bbIdxAfterDeal g ≠ sbIdxAfterDeal g :=
    succ_mod_ne hn hsb_lt
  have hq1 : ∀ q ∈ g.players, 1 ≤ q.chips := by
    intro q hq
    obtain ⟨i, hi, he⟩ := mem_getD g.players defaultPlayer hq
    have := hcov i hi
    rw [he] at this
    omega
  have hmain := postBlinds_conserves (dealHole (dealPrep shuffle g))
    (by rw [hlen]; exact hn)
    (by rw [hlen, hsb_seat]; exact hsb_lt)
    (by rw [hlen, hbb_seat]; exact Nat.mod_lt _ hnz)
    (by rw [hsb_seat, hbb_seat]; exact fun hc => hbb_ne hc.symm)
    (chips_lb_of_chipsMap _ _ hmap hq1)
    (by
      rw [hsb_seat, hchipsAt]
      have := hcov (sbIdxAfterDeal g) hsb_lt
      rw [if_pos rfl, if_neg (fun hc => hbb_ne hc.symm)] at this
      simpa using this)
    (by
      rw [hbb_seat, hchipsAt]
      have := hcov (bbIdxAfterDeal g) (Nat.mod_lt _ hnz)
      rw [if_neg hbb_ne, if_pos rfl] at this
      simpa using this)
  show sumChips (postBlinds (dealHole (dealPrep shuffle g))).players
      + (postBlinds (dealHole (dealPrep shuffle g))).pot = sumChips g.players
  rw [hmain]
  have hpot0 : (dealHole (dealPrep shuffle g)).pot = 0 := rfl
  rw [hpot0, hsum]
  omega

@[simp] theorem bbActedUpdate_players (g : Game) :
    (bbActedUpdate g).players = g.players := by
  unfold bbActedUpdate; split <;> rfl

@[simp] theorem bbActedUpdate_pot (g : Game) :
    (bbActedUpdate g).pot = g.pot := by
  unfold bbActedUpdate; split <;> rfl

@[simp] theorem bbActedUpdate_aggressor (g : Game) :
    (bbActedUpdate g).last_aggressor = g.last_aggressor := by
  unfold bbActedUpdate; split <;> rfl

theorem next_round_conserves (shuffle : List Card → List Card) (g : Game)
    (h : g.round ≠ Round.Showdown) :
    sumChips (next_round shuffle g).players + (next_round shuffle g).pot
      = sumChips g.players + g.pot := by
  have hreset : ∀ ps : List Player,
      sumChips (ps.map (fun p => { p with current_bet := 0 })) = sumChips ps :=
    fun ps => sumChips_map_chips ps _ (fun p => rfl)
  unfold next_round
  split
  all_goals dsimp only
  all_goals cases hgr : g.round
  all_goals try exact absurd hgr h
  all_goals dsimp only
  all_goals repeat' split
  all_goals dsimp only
  all_goals rw [hreset]

theorem scanLoop_conserves (shuffle : List Card → List Card) (g : Game)
    (aggr hb : Nat) :
    ∀ fuel cur g' b, scanLoop shuffle g aggr hb cur fuel = some (g', b) →
      sumChips g'.players + g'.pot = sumChips g.players + g.pot := by
  intro fuel
  induction fuel with
  | zero =>
    intro cur g' b hc
    exact absurd hc (by simp [scanLoop])
  | succ n ih =>
    intro cur g' b hc
    unfold scanLoop at hc
    dsimp only at hc
    split at hc
    · split at hc
      · split at hc
        · simp only [Option.some.injEq, Prod.mk.injEq] at hc
          obtain ⟨rfl, rfl⟩ := hc
          rfl
        · rename_i hnsd
          simp only [Option.some.injEq, Prod.mk.injEq] at hc
          obtain ⟨rfl, rfl⟩ := hc
          exact next_round_conserves shuffle _ hnsd
      · exact ih _ _ _ hc
    · simp only [Option.some.injEq, Prod.mk.injEq] at hc
      obtain ⟨rfl, rfl⟩ := hc
      rfl

theorem next_player_conserves (shuffle : List Card → List Card) (g g' : Game)
    (b : Bool) (h : next_player shuffle g = some (g', b)) :
    sumChips g'.players + g'.pot = sumChips g.players + g.pot := by
  unfold next_player at h
  dsimp only at h
  simp only [bbActedUpdate_aggressor] at h
  repeat' split at h
  all_goals try cases h
  all_goals try (simp only [Option.some.injEq, Prod.mk.injEq] at h
                 obtain ⟨rfl, rfl⟩ := h)
  all_goals try rfl
  all_goals try exact next_round_conserves shuffle _ (by assumption)
  all_goals try rw [scanLoop_conserves shuffle _ _ _ _ _ _ _ h]
  all_goals simp only [bbActedUpdate_players, bbActedUpdate_pot]

theorem runStep_conserves (shuffle : List Card → List Card) (g g' : Game)
    (s : HandStep) (h : runStep shuffle g s = some g') :
    sumChips g'.players + g'.pot = sumChips g.players + g.pot := by
  cases s with
  | act a =>
    unfold runStep at h
    dsimp only at h
    obtain ⟨r, hr, hok⟩ := perform_action_total g a
    rw [hr] at h
    dsimp only at h
    injection h with h1
    subst h1
    exact hok.2.2.2.1
  | advance =>
    unfold runStep at h
    dsimp only at h
    rcases hnp : next_player shuffle g with _ | r
    · rw [hnp] at h; cases h
    · rw [hnp] at h
      dsimp only at h
      injection h with h1
      subst h1
      exact next_player_conserves shuffle g r.1 r.2 (by rw [← hnp])

theorem runSteps_conserves (shuffle : List Card → List Card) :
    ∀ (steps : List HandStep) (g g' : Game),
      runSteps shuffle g steps = some g' →
      sumChips g'.players + g'.pot = sumChips g.players + g.pot := by
  intro steps
  induction steps with
  | nil =>
    intro g g' h
    unfold runSteps at h
    injection h with h1
    subst h1
    rfl
  | cons s rest ih =>
    intro g g' h
    unfold runSteps at h
    rcases hs : runStep shuffle g s with _ | g1
    · rw [hs] at h; cases h
    · rw [hs] at h
      dsimp only at h
      have h2 := ih g1 g' h
      have h1 := runStep_conserves shuffle g g1 s hs
      omega

/-- A table of two players where seat 0 is broke: deal_cards still grows the
pot by seat 0's ante and small blind although no chips leave the stack. -/
def c1BadGame : Game :=
  { players :=
      [{ name := "", hand := [], chips := 0, current_bet := 0,
         folded := false, is_bot := false, bot_difficulty := .Easy },
       { name := "", hand := [], chips := 100, current_bet := 0,
         folded := false, is_bot := true, bot_difficulty := .Easy }],
    deck := [], community_cards := [], pot := 0, current_player_idx := 0,
    min_bet := 10, round := .PreFlop, dealer_idx := 0, small_blind_idx := 1,
    big_blind_idx := 0, last_action_count := 0, bb_has_acted_preflop := false,
    players_acted_this_round := [], last_aggressor := none,
    round_action_complete := false, player_contributions_this_round := [0, 0] }

/-- The same table with both players funded. -/
def c1GoodGame : Game :=
  { players :=
      [{ name := "", hand := [], chips := 100, current_bet := 0,
         folded := false, is_bot := false, bot_difficulty := .Easy },
       { name := "", hand := [], chips := 100, current_bet := 0,
         folded := false, is_bot := true, bot_difficulty := .Easy }],
    deck := [], community_cards := [], pot := 0, current_player_idx := 0,
    min_bet := 10, round := .PreFlop, dealer_idx := 0, small_blind_idx := 1,
    big_blind_idx := 0, last_action_count := 0, bb_has_acted_preflop := false,
    players_acted_this_round := [], last_aggressor := none,
    round_action_complete := false, player_contributions_this_round := [0, 0] }

/-- Counterexample for C1 as stated: with a broke player at the table,
deal_cards posts antes and blinds through saturating subtraction but grows
the pot by the full amounts, creating chips out of thin air — the sum of
chips plus pot after the deal differs from the chip sum at hand start. -/
theorem C1_conservation_counterexample :
    sumChips (deal_cards id c1BadGame).players + (deal_cards id c1BadGame).pot
      ≠ sumChips c1BadGame.players := by decide

/-- C1 (amended): provided every player's chips at hand start cover the ante
and the incoming small- and big-blind seats additionally cover their blinds,
then for every sequence of player actions and turn advancements in the hand,
the sum of all players' chips plus the pot equals the sum of all players'
chips at hand start — deal_cards and perform_action only move chips between
players and the pot.  (Without the coverage proviso the saturating ante and
blind deductions of deal_cards create chips, see the counterexample.) -/
theorem C1_conservation_amended (shuffle : List Card → List Card) (g : Game)
    (steps : List HandStep) (g' : Game)
    (hn : 2 ≤ g.players.length)
    (hcov : ∀ i, i < g.players.length →
      1 + (if i = sbIdxAfterDeal g then g.min_bet / 2 else 0)
        + (if i = bbIdxAfterDeal g then g.min_bet else 0)
      ≤ (g.players.getD i defaultPlayer).chips)
    (hrun : runSteps shuffle (deal_cards shuffle g) steps = some g') :
    sumChips g'.players + g'.pot = sumChips g.players := by
  have hd := deal_cards_conserves shuffle g hn hcov
  have hs := runSteps_conserves shuffle steps (deal_cards shuffle g) g' hrun
  omega

/-- Witness for C1: on a funded two-player table, dealing a hand and letting
the first player call preserves the chip total of 200. -/
theorem C1_conservation_amended_witness :
    ∃ g', runSteps id (deal_cards id c1GoodGame) [HandStep.act GameAction.Call]
        = some g'
      ∧ sumChips g'.players + g'.pot = sumChips c1GoodGame.players := by
  refine ⟨_, rfl, ?_⟩
  exact C1_conservation_amended id c1GoodGame [HandStep.act GameAction.Call] _
    (by decide) (by decide) rfl

/-- A reachable mid-Flop state: seat 1 raised all-in to 30 (and so is the
last aggressor with 0 chips left), seats 0 and 2 have both acted and matched
30, and the action counter (20) far exceeds 3 times the active player count
(2). -/
def c5Game : Game :=
  { players :=
      [{ name := "", hand := [], chips := 50, current_bet := 30,
         folded := false, is_bot := false, bot_difficulty := .Easy },
       { name := "", hand := [], chips := 0, current_bet := 30,
         folded := false, is_bot := true, bot_difficulty := .Easy },
       { name := "", hand := [], chips := 40, current_bet := 30,
         folded := false, is_bot := true, bot_difficulty := .Easy }],
    deck := [], community_cards := [], pot := 91, current_player_idx := 0,
    min_bet := 10, round := .Flop, dealer_idx := 0, small_blind_idx := 1,
    big_blind_idx := 2, last_action_count := 20, bb_has_acted_preflop := true,
    players_acted_this_round := [0, 2], last_aggressor := some 1,
    round_action_complete := false,
    player_contributions_this_round := [30, 30, 30] }

/-- C5 is the spec's intent but the code violates it: at c5Game the action
count (20) exceeds 3 times the active player count (2), yet next_player does
not force round completion — its acted-since-aggressor scan can never reach
the all-in aggressor and cycles through seats 2 and 0 forever (none for
every fuel, i.e. the source loops forever), because the scan is evaluated
before the force_advancement safeguard is consulted. -/
theorem C5_safety_valve_diverges :
    2 ≤ activeCount c5Game
    ∧ activeCount c5Game * 3 ≤ c5Game.last_action_count
    ∧ (∀ fuel, allActedScan c5Game 1 2 fuel = none
        ∧ allActedScan c5Game 1 0 fuel = none)
    ∧ next_player id c5Game = none := by
  refine ⟨by decide, by decide, ?_, rfl⟩
  intro fuel
  induction fuel with
  | zero => exact ⟨rfl, rfl⟩
  | succ n ih =>
    constructor
    · have h2 : allActedScan c5Game 1 2 (n + 1) = allActedScan c5Game 1 0 n :=
        rfl
      rw [h2]
      exact ih.2
    · have h0 : allActedScan c5Game 1 0 (n + 1) = allActedScan c5Game 1 2 n :=
        rfl
      rw [h0]
      exact ih.1

theorem findNextFrom_some (ps : List Player) :
    ∀ fuel idx y, findNextFrom ps idx fuel = some y →
      isActive (ps.getD y defaultPlayer) = true := by
  intro fuel
  induction fuel with
  | zero => intro idx y h; cases h
  | succ n ih =>
    intro idx y h
    unfold findNextFrom at h
    split at h
    · injection h with h1
      subst h1
      assumption
    · exact ih _ _ h

theorem findNextFrom_none (ps : List Player) :
    ∀ fuel idx, idx < ps.length → findNextFrom ps idx fuel = none →
      ∀ j, j < fuel →
        isActive (ps.getD ((idx + j) % ps.length) defaultPlayer) = false := by
  intro fuel
  induction fuel with
  | zero => intro idx _ _ j hj; omega
  | succ n ih =>
    intro idx hidx h j hj
    have hlen : 0 < ps.length := by omega
    unfold findNextFrom at h
    split at h
    · cases h
    · rename_i hact
      cases j with
      | zero =>
        rw [Nat.add_zero, Nat.mod_eq_of_lt hidx]
        exact Bool.not_eq_true _ ▸ eq_false_of_ne_true hact
      | succ k =>
        have hk := ih ((idx + 1) % ps.length) (Nat.mod_lt _ hlen) h k
          (by omega)
        have he : ((idx + 1) % ps.length + k) % ps.length
            = (idx + (k + 1)) % ps.length := by
          rw [Nat.mod_add_mod]
          congr 1
          omega
        rw [he] at hk
        exact hk

/-- find_next_active_player returns an active seat whenever an active seat
exists. -/
theorem find_next_active (g : Game) (c : Nat)
    (hex : ∃ i, i < g.players.length
      ∧ isActive (g.players.getD i defaultPlayer) = true) :
    isActive (g.players.getD (find_next_active_player g c)
      defaultPlayer) = true := by
  unfold find_next_active_player
  rcases hf : findNextFrom g.players ((c + 1) % g.players.length)
      g.players.length with _ | y
  · exfalso
    obtain ⟨i, hi, hact⟩ := hex
    have hlen : 0 < g.players.length := by omega
    have hstart : (c + 1) % g.players.length < g.players.length :=
      Nat.mod_lt _ hlen
    obtain ⟨j, hjlt, hje⟩ : ∃ j, j < g.players.length
        ∧ ((c + 1) % g.players.length + j) % g.players.length = i := by
      by_cases hc : (c + 1) % g.players.length ≤ i
      · refine ⟨i - (c + 1) % g.players.length, by omega, ?_⟩
        have : (c + 1) % g.players.length
            + (i - (c + 1) % g.players.length) = i := by omega
        rw [this, Nat.mod_eq_of_lt hi]
      · refine ⟨i + g.players.length - (c + 1) % g.players.length,
          by omega, ?_⟩
        have : (c + 1) % g.players.length
            + (i + g.players.length - (c + 1) % g.players.length)
            = i + g.players.length := by omega
        rw [this, Nat.add_mod_right, Nat.mod_eq_of_lt hi]
    have := findNextFrom_none g.players g.players.length
      ((c + 1) % g.players.length) hstart hf j hjlt
    rw [hje] at this
    rw [hact] at this
    cases this
  · exact findNextFrom_some g.players _ _ _ hf

/-- For a non-Showdown round, next_round either lands in Showdown or seats
find_next_active_player from the small blind on the resulting table. -/
theorem next_round_seat (shuffle : List Card → List Card) (g : Game)
    (h1 : g.round ≠ Round.Showdown) :
    (next_round shuffle g).round = Round.Showdown
    ∨ ∃ G2 : Game,
        (next_round shuffle g).current_player_idx
          = find_next_active_player G2
              (G2.small_blind_idx % G2.players.length)
        ∧ (next_round shuffle g).players = G2.players := by
  unfold next_round
  split
  all_goals dsimp only
  all_goals cases hgr : g.round
  all_goals simp only [hgr] at h1 ⊢
  all_goals try exact absurd rfl h1
  all_goals try dsimp only
  all_goals repeat' split
  all_goals try dsimp only
  all_goals first
    | exact Or.inl rfl
    | exact Or.inr ⟨_, rfl, rfl⟩
    | simp_all

/-- After a PreFlop/Flop/Turn round transition, next_round seats an active
player, as long as any active seat exists. -/
theorem nextRound_seats_active (shuffle : List Card → List Card) (g : Game)
    (h1 : g.round ≠ Round.Showdown)
    (h2 : (next_round shuffle g).round ≠ Round.Showdown)
    (hex : ∃ i, i < (next_round shuffle g).players.length
      ∧ isActive ((next_round shuffle g).players.getD i defaultPlayer)
          = true) :
    isActive ((next_round shuffle g).players.getD
      (next_round shuffle g).current_player_idx defaultPlayer) = true := by
  rcases next_round_seat shuffle g h1 with hs | ⟨G2, hcur, hps⟩
  · exact absurd hs h2
  · rw [hps] at hex ⊢
    rw [hcur]
    exact find_next_active G2 _ hex

theorem scanLoop_seats_active (shuffle : List Card → List Card) (G : Game)
    (aggr hb : Nat) :
    ∀ fuel cur g', scanLoop shuffle G aggr hb cur fuel = some (g', true) →
      g'.round ≠ Round.Showdown →
      (∃ i, i < g'.players.length
        ∧ isActive (g'.players.getD i defaultPlayer) = true) →
      isActive (g'.players.getD g'.current_player_idx defaultPlayer)
        = true := by
  intro fuel
  induction fuel with
  | zero => intro cur g' h; cases h
  | succ n ih =>
    intro cur g' h h2 hex
    unfold scanLoop at h
    dsimp only at h
    split at h
    · split at h
      · split at h
        · simp only [Option.some.injEq, Prod.mk.injEq] at h
          exact absurd h.2 (by decide)
        · rename_i hnsd
          simp only [Option.some.injEq, Prod.mk.injEq] at h
          obtain ⟨rfl, -⟩ := h
          exact nextRound_seats_active shuffle _ hnsd h2 hex
      · exact ih _ _ h h2 hex
    · rename_i hcond
      simp only [Option.some.injEq, Prod.mk.injEq] at h
      obtain ⟨rfl, -⟩ := h
      dsimp only
      simp only [Bool.or_eq_true, not_or] at hcond
      unfold isActive
      rw [Bool.and_eq_true, Bool.not_eq_true']
      refine ⟨?_, ?_⟩
      · exact Bool.not_eq_true _ ▸ eq_false_of_ne_true hcond.1.1
      · simp only [beq_iff_eq] at hcond
        simpa using hcond.1.2

theorem nextPlayer_seats_active (shuffle : List Card → List Card)
    (g g' : Game) (h : next_player shuffle g = some (g', true))
    (h2 : g'.round ≠ Round.Showdown)
    (hex : ∃ i, i < g'.players.length
      ∧ isActive (g'.players.getD i defaultPlayer) = true) :
    isActive (g'.players.getD g'.current_player_idx defaultPlayer)
      = true := by
  unfold next_player at h
  dsimp only at h
  repeat' split at h
  all_goals try cases h
  all_goals try exact scanLoop_seats_active shuffle _ _ _ _ _ _ h h2 hex
  all_goals try (simp only [Option.some.injEq, Prod.mk.injEq] at h
                 obtain ⟨rfl, hb2⟩ := h)
  all_goals try exact absurd hb2 (by decide)
  all_goals try exact absurd rfl h2
  all_goals try exact nextRound_seats_active shuffle _ (by assumption) h2 hex
  all_goals exact find_next_active _ _ hex

theorem foldedMap_dealRound (ps : List Player) (dk : List Card) :
    ((dealRound ps dk).1).map (·.folded) = ps.map (·.folded) := by
  induction ps generalizing dk with
  | nil => rfl
  | cons p rest ih =>
    cases dk with
    | nil => simp [dealRound, ih]
    | cons c dkt => simp [dealRound, ih]

theorem getD_mem_or {α : Type _} (l : List α) (i : Nat) (d : α) :
    l.getD i d = d ∨ l.getD i d ∈ l := by
  induction l generalizing i with
  | nil => exact Or.inl rfl
  | cons a t ih =>
    cases i with
    | zero => exact Or.inr (by simp)
    | succ n =>
      rcases ih n with h | h
      · exact Or.inl (by simpa using h)
      · exact Or.inr (by simp; right; simpa using h)

theorem folded_false_of_foldedMap (ps qs : List Player)
    (hmap : ps.map (·.folded) = qs.map (·.folded))
    (hq : ∀ q ∈ qs, q.folded = false) : ∀ p ∈ ps, p.folded = false := by
  intro p hp
  have hmem : p.folded ∈ ps.map (·.folded) := List.mem_map_of_mem _ hp
  rw [hmap] at hmem
  obtain ⟨q, hq', he⟩ := List.mem_map.mp hmem
  rw [← he]
  exact hq q hq'

theorem mem_set_or {α : Type _} (l : List α) (i : Nat) (x a : α)
    (h : a ∈ l.set i x) : a ∈ l ∨ a = x := by
  induction l generalizing i with
  | nil => cases h
  | cons b t ih =>
    cases i with
    | zero =>
      rcases List.mem_cons.mp h with h1 | h1
      · exact Or.inr h1
      · exact Or.inl (List.mem_cons_of_mem _ h1)
    | succ n =>
      rcases List.mem_cons.mp h with h1 | h1
      · exact Or.inl (h1 ▸ List.mem_cons_self _ _)
      · rcases ih n h1 with h2 | h2
        · exact Or.inl (List.mem_cons_of_mem _ h2)
        · exact Or.inr h2

/-- Every player of a freshly dealt hand is unfolded: deal_cards resets the
folded flag and no later stage of it sets the flag again. -/
theorem deal_cards_folded (shuffle : List Card → List Card) (g : Game) :
    ∀ p ∈ (deal_cards shuffle g).players, p.folded = false := by
  have hstage : ∀ q ∈ (dealHole (dealPrep shuffle g)).players,
      q.folded = false := by
    apply folded_false_of_foldedMap _
      (g.players.map
        (fun p => { p with hand := [], folded := false, current_bet := 0 }))
    · show ((dealRound (dealRound _ _).1 (dealRound _ _).2).1).map _ = _
      rw [foldedMap_dealRound, foldedMap_dealRound]
      rfl
    · intro q hq
      obtain ⟨r, -, he⟩ := List.mem_map.mp hq
      rw [← he]
  have hanted : ∀ q ∈ (postBlinds (dealHole (dealPrep shuffle g))).players,
      q.folded = false := by
    unfold postBlinds
    dsimp only
    split
    · -- blinds posted
      intro q hq
      rcases mem_set_or _ _ _ _ hq with h1 | h1
      · rcases mem_set_or _ _ _ _ h1 with h2 | h2
        · obtain ⟨r, hr, he⟩ := List.mem_map.mp h2
          rw [← he]
          exact hstage r hr
        · subst h2
          dsimp only
          rcases getD_mem_or (List.map
              (fun p => { p with chips := p.chips - 1 })
              (dealHole (dealPrep shuffle g)).players) _ defaultPlayer
            with h3 | h3
          · rw [h3]; rfl
          · obtain ⟨r, hr, he⟩ := List.mem_map.mp h3
            rw [← he]
            exact hstage r hr
      · subst h1
        dsimp only
        rcases getD_mem_or (((dealHole (dealPrep shuffle g)).players.map
            (fun p => { p with chips := p.chips - 1 })).set _ _) _ defaultPlayer
          with h3 | h3
        · rw [h3]; rfl
        · rcases mem_set_or _ _ _ _ h3 with h4 | h4
          · obtain ⟨r, hr, he⟩ := List.mem_map.mp h4
            rw [← he]
            exact hstage r hr
          · rw [h4]
            dsimp only
            rcases getD_mem_or (List.map
                (fun p => { p with chips := p.chips - 1 })
                (dealHole (dealPrep shuffle g)).players) _ defaultPlayer
              with h5 | h5
            · rw [h5]; rfl
            · obtain ⟨r, hr, he⟩ := List.mem_map.mp h5
              rw [← he]
              exact hstage r hr
    · -- fewer than two players: only the antes were taken
      intro q hq
      obtain ⟨r, hr, he⟩ := List.mem_map.mp hq
      rw [← he]
      exact hstage r hr
  exact hanted

/-- With at least two players, deal_cards unconditionally seats the player
one past the (rotated) big blind, with no check of folded state or chips. -/
theorem deal_seat (shuffle : List Card → List Card) (g : Game)
    (hn : 2 ≤ g.players.length) :
    (deal_cards shuffle g).current_player_idx
      = ((deal_cards shuffle g).big_blind_idx + 1) % g.players.length := by
  have hlen : (dealHole (dealPrep shuffle g)).players.length
      = g.players.length := by
    have := congrArg List.length (chipsMap_deal_stage shuffle g)
    simpa using this
  unfold deal_cards postBlinds
  dsimp only
  rw [if_pos (by rw [hlen]; exact hn)]
  dsimp only
  rw [hlen]

/-- A three-player table where the player who will be under the gun next
hand (seat 0) is broke while the others are funded. -/
def c6Game : Game :=
  { players :=
      [{ name := "", hand := [], chips := 0, current_bet := 0,
         folded := false, is_bot := false, bot_difficulty := .Easy },
       { name := "", hand := [], chips := 100, current_bet := 0,
         folded := false, is_bot := true, bot_difficulty := .Easy },
       { name := "", hand := [], chips := 100, current_bet := 0,
         folded := false, is_bot := true, bot_difficulty := .Easy }],
    deck := [], community_cards := [], pot := 0, current_player_idx := 0,
    min_bet := 10, round := .PreFlop, dealer_idx := 2, small_blind_idx := 0,
    big_blind_idx := 1, last_action_count := 0, bb_has_acted_preflop := false,
    players_acted_this_round := [], last_aggressor := none,
    round_action_complete := false,
    player_contributions_this_round := [0, 0, 0] }

/-- Counterexample for C6 as stated: after deal_cards on c6Game it is seat
0's turn, a player with zero chips, although seats 1 and 2 are non-folded
with chips — current_player_idx does not refer to an active player even
though one exists. -/
theorem C6_active_seat_counterexample :
    isActive ((deal_cards id c6Game).players.getD
      (deal_cards id c6Game).current_player_idx defaultPlayer) = false
    ∧ ∃ i, i < (deal_cards id c6Game).players.length
        ∧ isActive ((deal_cards id c6Game).players.getD i defaultPlayer)
            = true := by
  exact ⟨by decide, 1, by decide, by decide⟩

/-- C6 (amended): after next_round (entered and left outside Showdown) and
after every next_player advancement that designates a player's turn,
current_player_idx refers to a non-folded player with nonzero chips whenever
such a player exists; after deal_cards, however, the first actor is seated
at (big_blind_idx + 1) mod n unconditionally — everyone is unfolded there,
so that seat satisfies the property if and only if it has nonzero chips
(which the code does not check, see the counterexample). -/
theorem C6_active_seat_amended :
    (∀ (shuffle : List Card → List Card) (g : Game), 2 ≤ g.players.length →
      (deal_cards shuffle g).current_player_idx
        = ((deal_cards shuffle g).big_blind_idx + 1) % g.players.length
      ∧ (isActive ((deal_cards shuffle g).players.getD
            (deal_cards shuffle g).current_player_idx defaultPlayer) = true
          ↔ ((deal_cards shuffle g).players.getD
              (deal_cards shuffle g).current_player_idx
              defaultPlayer).chips ≠ 0))
    ∧ (∀ (shuffle : List Card → List Card) (g : Game),
        g.round ≠ Round.Showdown →
        (next_round shuffle g).round ≠ Round.Showdown →
        (∃ i, i < (next_round shuffle g).players.length
          ∧ isActive ((next_round shuffle g).players.getD i defaultPlayer)
              = true) →
        isActive ((next_round shuffle g).players.getD
          (next_round shuffle g).current_player_idx defaultPlayer) = true)
    ∧ (∀ (shuffle : List Card → List Card) (g g' : Game),
        next_player shuffle g = some (g', true) →
        g'.round ≠ Round.Showdown →
        (∃ i, i < g'.players.length
          ∧ isActive (g'.players.getD i defaultPlayer) = true) →
        isActive (g'.players.getD g'.current_player_idx defaultPlayer)
          = true) := by
  refine ⟨?_, nextRound_seats_active, nextPlayer_seats_active⟩
  intro shuffle g hn
  refine ⟨deal_seat shuffle g hn, ?_⟩
  have hfold : ((deal_cards shuffle g).players.getD
      (deal_cards shuffle g).current_player_idx defaultPlayer).folded
      = false := by
    rcases getD_mem_or (deal_cards shuffle g).players
        (deal_cards shuffle g).current_player_idx defaultPlayer with h | h
    · rw [h]; rfl
    · exact deal_cards_folded shuffle g _ h
  unfold isActive
  rw [hfold]
  simp

/-- Witness for C6: at witnessGame next_player hands the turn to seat 2,
which is indeed a non-folded player with chips. -/
theorem C6_active_seat_amended_witness :
    ∃ g', next_player id witnessGame = some (g', true)
      ∧ isActive (g'.players.getD g'.current_player_idx defaultPlayer)
          = true := by
  refine ⟨_, rfl, ?_⟩
  exact C6_active_seat_amended.2.2 id witnessGame _ rfl (by decide)
    ⟨0, by decide, by decide⟩

theorem dealN_comm_length (k : Nat) :
    ∀ (d c : List Card), ((dealN k d c).2).length = c.length + min k d.length := by
  induction k with
  | zero => intro d c; simp [dealN]
  | succ n ih =>
    intro d c
    cases d with
    | nil => simp [dealN]
    | cons x t =>
      rw [show dealN (n + 1) (x :: t) c = dealN n t (c ++ [x]) from rfl, ih]
      simp only [List.length_append, List.length_cons, List.length_nil]
      rw [Nat.succ_min_succ]
      omega

theorem create_deck_length : create_deck.length = 52 := by decide

/-- A Flop-round table whose board somehow holds four cards already: the
next_round transition into Turn blindly appends a fifth card. -/
def c8Game : Game :=
  { players :=
      [{ name := "", hand := [], chips := 100, current_bet := 0,
         folded := false, is_bot := false, bot_difficulty := .Easy },
       { name := "", hand := [], chips := 100, current_bet := 0,
         folded := false, is_bot := true, bot_difficulty := .Easy },
       { name := "", hand := [], chips := 100, current_bet := 0,
         folded := false, is_bot := true, bot_difficulty := .Easy }],
    deck := create_deck, community_cards := [defaultCard, defaultCard,
      defaultCard, defaultCard],
    pot := 30, current_player_idx := 0, min_bet := 10, round := .Flop,
    dealer_idx := 0, small_blind_idx := 1, big_blind_idx := 2,
    last_action_count := 0, bb_has_acted_preflop := true,
    players_acted_this_round := [], last_aggressor := none,
    round_action_complete := false,
    player_contributions_this_round := [0, 0, 0] }

/-- Counterexample for C8 as stated: a Flop-to-Turn transition on a board
that already holds 4 cards leaves 5 community cards, not the expected 4 —
next_round appends rather than clearing and redealing on a length
mismatch. -/
theorem C8_board_size_counterexample :
    (next_round id c8Game).round = Round.Turn
    ∧ (next_round id c8Game).community_cards.length = 5 := by
  exact ⟨by decide, by decide⟩

theorem dealN_deck_length (k : Nat) :
    ∀ (d c : List Card), ((dealN k d c).1).length = d.length - min k d.length := by
  induction k with
  | zero => intro d c; simp [dealN]
  | succ n ih =>
    intro d c
    cases d with
    | nil => simp [dealN]
    | cons x t =>
      rw [show dealN (n + 1) (x :: t) c = dealN n t (c ++ [x]) from rfl, ih]
      rw [List.length_cons, Nat.succ_min_succ]
      omega

theorem C8_board_size_amended (shuffle : List Card → List Card) (g : Game)
    (hsh : ∀ d, (shuffle d).length = d.length)
    (hpre : g.community_cards.length = expectedCommunity g.round) :
    (g.round = Round.PreFlop →
      (next_round shuffle g).round = Round.Flop
      ∧ (next_round shuffle g).community_cards.length = 3)
    ∧ (g.round = Round.Flop →
      (next_round shuffle g).round = Round.Turn
      ∧ (next_round shuffle g).community_cards.length = 4)
    ∧ (g.round = Round.Turn →
      (next_round shuffle g).round = Round.River
      ∧ (next_round shuffle g).community_cards.length = 5)
    ∧ (g.round = Round.River →
      (next_round shuffle g).round = Round.Showdown
      ∧ (next_round shuffle g).community_cards.length = 5)
    ∧ (∀ g2 : Game, g2.round = Round.Turn →
      (deal_community_cards shuffle g2).community_cards.length = 4) := by
  refine ⟨?_, ?_, ?_, ?_, ?_⟩
  case refine_5 =>
    intro g2 hgr
    unfold deal_community_cards
    split
    all_goals rename_i hd
    all_goals try dsimp only
    all_goals simp only [hgr]
    all_goals try dsimp only
    all_goals repeat' split
    all_goals try dsimp only
    all_goals try (rw [dealN_comm_length]
                   try rw [dealN_deck_length]
                   try simp only [List.length_nil]
                   try simp only [hsh, create_deck_length]
                   simp only [expectedCommunity]
                   omega)
    all_goals try simp_all [dealN_comm_length, hsh, create_deck_length,
                            expectedCommunity]
    all_goals omega
  all_goals intro hgr
  all_goals rw [hgr] at hpre
  all_goals simp only [expectedCommunity] at hpre
  all_goals unfold next_round
  all_goals split
  all_goals rename_i hd
  all_goals try dsimp only
  all_goals simp only [hgr]
  all_goals try dsimp only
  all_goals constructor
  all_goals repeat' split
  all_goals try dsimp only
  all_goals try rfl
  all_goals try exact hpre
  all_goals try (rw [dealN_comm_length]
                 try rw [hpre]
                 try simp only [List.length_nil]
                 try simp only [hsh, create_deck_length]
                 omega)
  all_goals try omega
  all_goals simp_all

/-- Game used to witness the amended board-size claim: Flop round with the
expected 3-card board. -/
def c8wGame : Game :=
  { c8Game with community_cards := List.replicate 3 defaultCard }

theorem C8_board_size_amended_witness :
    (next_round id c8wGame).round = Round.Turn
    ∧ (next_round id c8wGame).community_cards.length = 4 :=
  (C8_board_size_amended id c8wGame (fun d => rfl) (by decide)).2.1 rfl

/-- The (category, tiebreak) value the evaluator assigns to player i's
combined hole + community cards (game.rs lines 906-918). -/
def handOf (evalHand : List Card → Nat × Nat) (g : Game) (i : Nat) :
    Nat × Nat :=
  evalHand ((g.players.getD i defaultPlayer).hand ++ g.community_cards)

theorem mem_activeIdx {g : Game} {i : Nat} :
    i ∈ activeIdx g
    ↔ i < g.players.length ∧ (g.players.getD i defaultPlayer).folded = false := by
  unfold activeIdx
  simp [List.mem_filter, List.mem_range]

theorem lexLe_refl (a : Nat × Nat) : lexLe a a := Or.inr ⟨rfl, Nat.le_refl _⟩

theorem lexLe_trans {a b c : Nat × Nat} (h1 : lexLe a b) (h2 : lexLe b c) :
    lexLe a c := by
  unfold lexLe at h1 h2 ⊢
  omega

theorem lexLe_of_not_lexGt {a b : Nat × Nat} (h : ¬ lexGt a b = true) :
    lexLe a b := by
  simp only [lexGt, Bool.or_eq_true, decide_eq_true_eq, Bool.and_eq_true,
    beq_iff_eq] at h
  unfold lexLe
  omega

theorem lexLe_of_lexGt {a b : Nat × Nat} (h : lexGt a b = true) :
    lexLe b a := by
  simp only [lexGt, Bool.or_eq_true, decide_eq_true_eq, Bool.and_eq_true,
    beq_iff_eq] at h
  unfold lexLe
  omega

theorem dwStep_canon (e : List Card → Nat × Nat) (g : Game)
    (hcc : g.community_cards.isEmpty = false) (w j : Nat)
    (hj : ((g.players.getD j defaultPlayer).hand).isEmpty = false) :
    ∃ w', dwStep e g ((handOf e g w).1, some (handOf e g w), w) j
            = ((handOf e g w').1, some (handOf e g w'), w')
      ∧ (w' = w ∨ w' = j)
      ∧ lexLe (handOf e g w) (handOf e g w')
      ∧ lexLe (handOf e g j) (handOf e g w') := by
  unfold dwStep handOf
  dsimp only
  split
  · split
    · rename_i hc1
      simp only [Option.isNone_some, Bool.or_false, decide_eq_true_eq] at hc1
      exact ⟨j, rfl, Or.inr rfl, Or.inl hc1, lexLe_refl _⟩
    · rename_i hc1
      simp only [Option.isNone_some, Bool.or_false, decide_eq_true_eq] at hc1
      split
      · rename_i hc2
        simp only [Option.isSome_some, Bool.and_true, beq_iff_eq] at hc2
        split
        · rename_i hgt
          refine ⟨j, ?_, Or.inr rfl, lexLe_of_lexGt hgt, lexLe_refl _⟩
          rw [hc2]
        · rename_i hngt
          exact ⟨w, rfl, Or.inl rfl, lexLe_refl _, lexLe_of_not_lexGt hngt⟩
      · rename_i hc2
        simp only [Option.isSome_some, Bool.and_true, beq_iff_eq] at hc2
        refine ⟨w, rfl, Or.inl rfl, lexLe_refl _, Or.inl ?_⟩
        omega
  · rename_i hmain
    exact absurd (by rw [hj, hcc]; rfl) hmain

theorem dwStep_init (e : List Card → Nat × Nat) (g : Game)
    (hcc : g.community_cards.isEmpty = false) (a : Nat)
    (ha : ((g.players.getD a defaultPlayer).hand).isEmpty = false) :
    dwStep e g (0, none, a) a = ((handOf e g a).1, some (handOf e g a), a) := by
  unfold dwStep handOf
  dsimp only
  split
  · split
    · rfl
    · rename_i hc1
      simp only [Option.isNone_none, Bool.or_true] at hc1
      exact (hc1 trivial).elim
  · rename_i hmain
    exact absurd (by rw [ha, hcc]; rfl) hmain

theorem dwFold_inv (e : List Card → Nat × Nat) (g : Game)
    (hcc : g.community_cards.isEmpty = false) :
    ∀ (l : List Nat) (w : Nat),
      (∀ i ∈ l, ((g.players.getD i defaultPlayer).hand).isEmpty = false) →
      ∃ w', l.foldl (dwStep e g) ((handOf e g w).1, some (handOf e g w), w)
              = ((handOf e g w').1, some (handOf e g w'), w')
        ∧ (w' = w ∨ w' ∈ l)
        ∧ lexLe (handOf e g w) (handOf e g w')
        ∧ ∀ j ∈ l, lexLe (handOf e g j) (handOf e g w') := by
  intro l
  induction l with
  | nil =>
    intro w _
    exact ⟨w, rfl, Or.inl rfl, lexLe_refl _, by intro j hj; cases hj⟩
  | cons a t ih =>
    intro w h
    obtain ⟨w1, heq, hmem, hle_w, hle_a⟩ :=
      dwStep_canon e g hcc w a (h a (List.mem_cons_self a t))
    rw [List.foldl_cons, heq]
    obtain ⟨w', heq', hmem', hle1, hall⟩ :=
      ih w1 (fun i hi => h i (List.mem_cons_of_mem a hi))
    refine ⟨w', heq', ?_, lexLe_trans hle_w hle1, ?_⟩
    · rcases hmem' with rfl | hm
      · rcases hmem with rfl | rfl
        · exact Or.inl rfl
        · exact Or.inr (List.mem_cons_self _ _)
      · exact Or.inr (List.mem_cons_of_mem _ hm)
    · intro q hq
      rcases List.mem_cons.mp hq with rfl | hqt
      · exact lexLe_trans hle_a hle1
      · exact hall q hqt

/-- C7 (amended): provided the board is non-empty, every non-folded player
holds at least one hole card, and two or more players are non-folded,
determine_winner awards the whole pot to a non-folded player whose evaluated
hand is maximal among all non-folded players under the evaluator's
lexicographic (category, kicker) order: the winner's chips grow by the pot,
the pot is zeroed, and the reported winnings equal the old pot.  (The
original claim is refuted by C7_winner_counterexample: with an empty board
the pair/high-card fallback of game.rs lines 921-955 ignores kickers, so a
pair of Twos seen first beats a later pair of Aces.) -/
theorem C7_winner_amended (e : List Card → Nat × Nat) (g : Game)
    (hcc : g.community_cards.isEmpty = false)
    (hhands : ∀ i ∈ activeIdx g,
      ((g.players.getD i defaultPlayer).hand).isEmpty = false)
    (hact : 2 ≤ (activeIdx g).length) :
    (determine_winner e g).2.1 ∈ activeIdx g
    ∧ (∀ j ∈ activeIdx g,
        lexLe (handOf e g j) (handOf e g ((determine_winner e g).2.1)))
    ∧ (determine_winner e g).1.pot = 0
    ∧ (determine_winner e g).2.2 = g.pot
    ∧ ((determine_winner e g).1.players.getD ((determine_winner e g).2.1)
        defaultPlayer).chips
      = (g.players.getD ((determine_winner e g).2.1) defaultPlayer).chips
        + g.pot := by
  obtain ⟨a, t, hat⟩ : ∃ a t, activeIdx g = a :: t := by
    cases hl : activeIdx g with
    | nil => rw [hl] at hact; exact absurd hact (by simp)
    | cons a t => exact ⟨a, t, rfl⟩
  have hne : ¬ (activeIdx g).length = 1 := by omega
  have ha : ((g.players.getD a defaultPlayer).hand).isEmpty = false :=
    hhands a (by rw [hat]; exact List.mem_cons_self a t)
  obtain ⟨w', heq', hmem', hleA, hall⟩ := dwFold_inv e g hcc t a
    (fun i hi => hhands i (by rw [hat]; exact List.mem_cons_of_mem a hi))
  have hwin : w' ∈ activeIdx g := by
    rw [hat]
    rcases hmem' with rfl | hm
    · exact List.mem_cons_self _ _
    · exact List.mem_cons_of_mem _ hm
  have hdw : determine_winner e g
      = ({ g with
            players := g.players.set w'
              { g.players.getD w' defaultPlayer with
                chips := (g.players.getD w' defaultPlayer).chips + g.pot },
            pot := 0 }, w', g.pot) := by
    unfold determine_winner
    dsimp only
    rw [if_neg ?hc]
    case hc => exact hne
    rw [hat]
    rw [show (a :: t).getD 0 0 = a from rfl]
    rw [List.foldl_cons, dwStep_init e g hcc a ha, heq']
  refine ⟨?_, ?_, ?_, ?_, ?_⟩
  · rw [hdw]
    exact hwin
  · intro q hq
    rw [hdw]
    dsimp only
    rw [hat] at hq
    rcases List.mem_cons.mp hq with rfl | hqt
    · exact hleA
    · exact hall q hqt
  · rw [hdw]
  · rw [hdw]
  · rw [hdw]
    dsimp only
    rw [getD_set_self, if_pos (mem_activeIdx.mp hwin).1]

/-- Numerical rank value used by the concrete two-card evaluator below. -/
def rankVal : Rank → Nat
  | .Two => 2 | .Three => 3 | .Four => 4 | .Five => 5 | .Six => 6
  | .Seven => 7 | .Eight => 8 | .Nine => 9 | .Ten => 10
  | .Jack => 11 | .Queen => 12 | .King => 13 | .Ace => 14

/-- A concrete evaluator consistent with standard poker ranking on two-card
hands: category 1 (Pair) when the first two cards share a rank, else
category 0 (High Card); kicker = value of the first card's rank. -/
def c7Eval (cs : List Card) : Nat × Nat :=
  match cs with
  | a :: b :: _ =>
    if a.rank = b.rank then (1, rankVal a.rank) else (0, rankVal a.rank)
  | a :: _ => (0, rankVal a.rank)
  | [] => (0, 0)

/-- Pre-flop showdown: seat 0 holds a pair of Twos, seat 1 a pair of Aces,
seat 2 has folded; the board is empty. -/
def gC7 : Game :=
  { players :=
      [{ name := "", hand := [⟨.Two, .Hearts⟩, ⟨.Two, .Spades⟩], chips := 100,
         current_bet := 0, folded := false, is_bot := false,
         bot_difficulty := .Easy },
       { name := "", hand := [⟨.Ace, .Hearts⟩, ⟨.Ace, .Spades⟩], chips := 100,
         current_bet := 0, folded := false, is_bot := true,
         bot_difficulty := .Easy },
       { name := "", hand := [], chips := 100, current_bet := 0,
         folded := true, is_bot := true, bot_difficulty := .Easy }],
    deck := [], community_cards := [], pot := 30, current_player_idx := 0,
    min_bet := 10, round := .Showdown, dealer_idx := 0, small_blind_idx := 1,
    big_blind_idx := 2, last_action_count := 0, bb_has_acted_preflop := true,
    players_acted_this_round := [], last_aggressor := none,
    round_action_complete := false,
    player_contributions_this_round := [0, 0, 0] }

/-- Counterexample for C7 as stated: two non-folded players, yet the pot goes
to seat 0 (pair of Twos) although non-folded seat 1's evaluated hand (pair of
Aces) is strictly greater — with an empty board the fallback of game.rs lines
921-955 never compares kickers, so the claimed maximality fails. -/
theorem C7_winner_counterexample :
    2 ≤ (activeIdx gC7).length
    ∧ (determine_winner c7Eval gC7).2.1 = 0
    ∧ 1 ∈ activeIdx gC7
    ∧ lexGt (handOf c7Eval gC7 1) (handOf c7Eval gC7 0) = true := by
  decide

/-- The same table with a non-empty board, satisfying the amended claim's
hypotheses. -/
def gC7w : Game :=
  { gC7 with community_cards := [⟨.Five, .Hearts⟩, ⟨.Seven, .Clubs⟩,
      ⟨.Nine, .Diamonds⟩] }

theorem C7_winner_amended_witness :
    (determine_winner c7Eval gC7w).2.1 ∈ activeIdx gC7w
    ∧ (∀ j ∈ activeIdx gC7w,
        lexLe (handOf c7Eval gC7w j)
          (handOf c7Eval gC7w ((determine_winner c7Eval gC7w).2.1)))
    ∧ (determine_winner c7Eval gC7w).1.pot = 0
    ∧ (determine_winner c7Eval gC7w).2.2 = gC7w.pot
    ∧ ((determine_winner c7Eval gC7w).1.players.getD
        ((determine_winner c7Eval gC7w).2.1) defaultPlayer).chips
      = (gC7w.players.getD ((determine_winner c7Eval gC7w).2.1)
          defaultPlayer).chips + gC7w.pot :=
  C7_winner_amended c7Eval gC7w (by decide) (by decide) (by decide)

theorem prefix_cons {c : Char} {l s : List Char}
    (h : List.isPrefixOf (c :: l) s = true) :
    ∃ t, s = c :: t ∧ List.isPrefixOf l t = true := by
  cases s with
  | nil => simp [List.isPrefixOf] at h
  | cons x t =>
    simp only [List.isPrefixOf, Bool.and_eq_true, beq_iff_eq] at h
    exact ⟨t, by rw [h.1], h.2⟩

theorem parse_bot_action_ok (g : Game) (s : List Char) :
    ∃ a, parse_bot_action g s = .ok a := by
  unfold parse_bot_action
  dsimp only
  repeat' split
  all_goals exact ⟨_, rfl⟩

/-- C10: bot decisions never fail: parse_bot_action is total and only ever
returns Ok (the Err branch of get_bot_action, game.rs line 1109, is
unreachable); a raise whose amount token is missing or unparseable falls
back to Raise(min_bet); a string with no recognised prefix falls back to
Check; hence get_bot_action returns Ok for every state, rng draw and
player. -/
theorem C10_bot_action_total (g : Game) :
    (∀ s : List Char, ∃ a, parse_bot_action g s = .ok a)
    ∧ (∀ s : List Char, List.isPrefixOf "raise".toList s = true →
        parse_u32 ((splitWS s).getD 1 []) = none →
        parse_bot_action g s = .ok (.Raise g.min_bet))
    ∧ (∀ s : List Char,
        List.isPrefixOf "fold".toList s = false →
        List.isPrefixOf "call".toList s = false →
        List.isPrefixOf "check".toList s = false →
        List.isPrefixOf "raise".toList s = false →
        parse_bot_action g s = .ok .Check)
    ∧ (∀ (choice : Int) (raiseFactor : Nat) (player : Player),
        ∃ a, get_bot_action g choice raiseFactor player = .ok a) := by
  refine ⟨parse_bot_action_ok g, ?_, ?_, ?_⟩
  · intro s hr hnone
    rw [show ("raise".toList : List Char) = 'r' :: "aise".toList from rfl] at hr
    obtain ⟨t1, rfl, _⟩ := prefix_cons hr
    have hfold : List.isPrefixOf "fold".toList ('r' :: t1) = false := rfl
    have hcall : List.isPrefixOf "call".toList ('r' :: t1) = false := rfl
    have hcheck : List.isPrefixOf "check".toList ('r' :: t1) = false := rfl
    unfold parse_bot_action
    dsimp only
    repeat' split
    all_goals simp_all
  · intro s hfold hcall hcheck hraise
    unfold parse_bot_action
    dsimp only
    repeat' split
    all_goals simp_all
  · intro choice raiseFactor player
    unfold get_bot_action
    exact parse_bot_action_ok g _

theorem C10_bot_action_total_witness :
    (∃ a, parse_bot_action witnessGame ['x'] = .ok a)
    ∧ parse_bot_action witnessGame "raise zz".toList
        = .ok (.Raise witnessGame.min_bet)
    ∧ parse_bot_action witnessGame ['x'] = .ok .Check
    ∧ (∃ a, get_bot_action witnessGame 0 1 defaultPlayer = .ok a) := by
  obtain ⟨h1, h2, h3, h4⟩ := C10_bot_action_total witnessGame
  exact ⟨h1 ['x'], h2 _ (by decide) (by decide),
    h3 ['x'] (by decide) (by decide) (by decide) (by decide),
    h4 0 1 defaultPlayer⟩

end Poker
